import Mathlib

/-
  Verification of the kgenealogic cluster engine against its specification.

  The Python sources (kgenealogic/schema.py, data.py, cluster.py) are shallowly
  embedded below.  The relational store is a record of lists of rows; SQL
  queries become list comprehensions; pandas dataframes become lists of
  records; each committed transaction is a function from stores to stores, and
  operations that commit several times return the list of committed states in
  order.  SQLite integers are Int, floats (cM lengths, edge weights) are Rat,
  nullable columns are Option.
-/

set_option maxRecDepth 8000

namespace Kg

/-! ### List helpers

`dedupF` keeps the first occurrence of each element, as pandas
`drop_duplicates` and SQL `DISTINCT` (in row order) do.  `insSort` is a
stable insertion sort standing in for `sort_values`.  `aggMax`/`aggMin` are
the SQL `max`/`min` aggregates (`NULL` on the empty multiset). -/

def dedupFAux [DecidableEq α] (seen : List α) : List α → List α
  | [] => []
  | a :: t => if a ∈ seen then dedupFAux seen t else a :: dedupFAux (a :: seen) t

def dedupF [DecidableEq α] (l : List α) : List α := dedupFAux [] l

def insOne (le : α → α → Bool) (a : α) : List α → List α
  | [] => [a]
  | b :: t => if le a b then a :: b :: t else b :: insOne le a t

def insSort (le : α → α → Bool) : List α → List α
  | [] => []
  | a :: t => insOne le a (insSort le t)

def aggMax : List Int → Option Int
  | [] => none
  | a :: t =>
    match aggMax t with
    | none => some a
    | some m => some (max a m)

def aggMin : List Int → Option Int
  | [] => none
  | a :: t =>
    match aggMin t with
    | none => some a
    | some m => some (min a m)

theorem mem_dedupFAux [DecidableEq α] (l : List α) : ∀ (seen : List α) (x : α),
    x ∈ dedupFAux seen l ↔ x ∈ l ∧ x ∉ seen := by
  induction l with
  | nil => intro seen x; simp [dedupFAux]
  | cons a t ih =>
    intro seen x
    by_cases h : a ∈ seen
    · rw [dedupFAux, if_pos h, ih]
      constructor
      · rintro ⟨hx, hns⟩
        exact ⟨List.mem_cons_of_mem a hx, hns⟩
      · rintro ⟨hx, hns⟩
        rcases List.mem_cons.mp hx with rfl | hx
        · exact absurd h hns
        · exact ⟨hx, hns⟩
    · rw [dedupFAux, if_neg h]
      constructor
      · intro hx
        rcases List.mem_cons.mp hx with rfl | hx
        · exact ⟨List.mem_cons_self x t, h⟩
        · rcases (ih _ x).mp hx with ⟨h1, h2⟩
          exact ⟨List.mem_cons_of_mem a h1, fun hc => h2 (List.mem_cons_of_mem a hc)⟩
      · rintro ⟨hx, hns⟩
        rcases List.mem_cons.mp hx with rfl | hx
        · exact List.mem_cons_self x _
        · by_cases hxa : x = a
          · subst hxa; exact List.mem_cons_self x _
          · refine List.mem_cons_of_mem a ((ih _ x).mpr ⟨hx, fun hc => ?_⟩)
            rcases List.mem_cons.mp hc with h1 | h1
            · exact hxa h1
            · exact hns h1

theorem mem_dedupF [DecidableEq α] (l : List α) (x : α) : x ∈ dedupF l ↔ x ∈ l := by
  rw [dedupF, mem_dedupFAux]
  simp

theorem mem_insOne (le : α → α → Bool) (a : α) (l : List α) (x : α) :
    x ∈ insOne le a l ↔ x = a ∨ x ∈ l := by
  induction l with
  | nil => simp [insOne]
  | cons b t ih =>
    by_cases h : le a b
    · simp [insOne, h]
    · simp only [insOne, if_neg h, List.mem_cons, ih]
      tauto

theorem mem_insSort (le : α → α → Bool) (l : List α) (x : α) :
    x ∈ insSort le l ↔ x ∈ l := by
  induction l with
  | nil => simp [insSort]
  | cons a t ih => simp [insSort, mem_insOne, ih]

theorem insOne_sorted (le : α → α → Bool)
    (htot : ∀ a b, le a b = true ∨ le b a = true)
    (htrans : ∀ a b c, le a b = true → le b c = true → le a c = true)
    (a : α) (l : List α) (h : l.Pairwise (fun x y => le x y = true)) :
    (insOne le a l).Pairwise (fun x y => le x y = true) := by
  induction l with
  | nil => simp [insOne]
  | cons b t ih =>
    rcases List.pairwise_cons.mp h with ⟨hb, ht⟩
    by_cases hab : le a b = true
    · rw [insOne, if_pos hab]
      refine List.pairwise_cons.mpr ⟨?_, h⟩
      intro y hy
      rcases List.mem_cons.mp hy with rfl | hy
      · exact hab
      · exact htrans a b y hab (hb y hy)
    · rw [insOne, if_neg hab]
      refine List.pairwise_cons.mpr ⟨?_, ih ht⟩
      intro y hy
      rcases (mem_insOne le a t y).mp hy with rfl | hy
      · rcases htot y b with h1 | h1
        · exact absurd h1 hab
        · exact h1
      · exact hb y hy

theorem insSort_sorted (le : α → α → Bool)
    (htot : ∀ a b, le a b = true ∨ le b a = true)
    (htrans : ∀ a b c, le a b = true → le b c = true → le a c = true)
    (l : List α) :
    (insSort le l).Pairwise (fun x y => le x y = true) := by
  induction l with
  | nil => simp [insSort]
  | cons a t ih => exact insOne_sorted le htot htrans a _ ih

theorem insSort_eq_nil (le : α → α → Bool) (l : List α) :
    insSort le l = [] ↔ l = [] := by
  constructor
  · intro h
    cases l with
    | nil => rfl
    | cons a t =>
      exfalso
      have : a ∈ insSort le (a :: t) := (mem_insSort le _ a).mpr (List.mem_cons_self a t)
      rw [h] at this
      exact List.not_mem_nil a this
  · rintro rfl; rfl

theorem aggMax_eq_none (l : List Int) : aggMax l = none ↔ l = [] := by
  cases l with
  | nil => simp [aggMax]
  | cons a t =>
    simp only [aggMax]
    cases aggMax t <;> simp

theorem aggMin_eq_none (l : List Int) : aggMin l = none ↔ l = [] := by
  cases l with
  | nil => simp [aggMin]
  | cons a t =>
    simp only [aggMin]
    cases aggMin t <;> simp

theorem aggMax_spec (l : List Int) : ∀ (m : Int),
    aggMax l = some m ↔ m ∈ l ∧ ∀ x ∈ l, x ≤ m := by
  induction l with
  | nil => intro m; simp [aggMax]
  | cons a t ih =>
    intro m
    cases ht : aggMax t with
    | none =>
      have htn : t = [] := (aggMax_eq_none t).mp ht
      subst htn
      rw [aggMax]
      constructor
      · intro hm
        cases hm
        exact ⟨List.mem_cons_self a [], fun x hx => by
          rcases List.mem_cons.mp hx with rfl | hx
          · exact le_refl x
          · exact absurd hx (List.not_mem_nil x)⟩
      · rintro ⟨hm, _⟩
        rcases List.mem_cons.mp hm with rfl | hm
        · rfl
        · exact absurd hm (List.not_mem_nil m)
    | some b =>
      have hb := (ih b).mp ht
      rw [aggMax, ht]
      constructor
      · intro hm
        have hm' : m = max a b := by cases hm; rfl
        subst hm'
        refine ⟨?_, fun x hx => ?_⟩
        · rcases max_choice a b with hc | hc <;> rw [hc]
          · exact List.mem_cons_self a t
          · exact List.mem_cons_of_mem a hb.1
        · rcases List.mem_cons.mp hx with rfl | hx
          · exact le_max_left _ _
          · exact le_trans (hb.2 x hx) (le_max_right a b)
      · rintro ⟨hm, hub⟩
        have h1 : a ≤ m := hub a (List.mem_cons_self a t)
        have h2 : b ≤ m := hub b (List.mem_cons_of_mem a hb.1)
        have h3 : m ≤ max a b := by
          rcases List.mem_cons.mp hm with rfl | hm
          · exact le_max_left _ _
          · exact le_trans (hb.2 m hm) (le_max_right a b)
        exact congrArg some (le_antisymm (max_le h1 h2) h3)

theorem aggMin_spec (l : List Int) : ∀ (m : Int),
    aggMin l = some m ↔ m ∈ l ∧ ∀ x ∈ l, m ≤ x := by
  induction l with
  | nil => intro m; simp [aggMin]
  | cons a t ih =>
    intro m
    cases ht : aggMin t with
    | none =>
      have htn : t = [] := (aggMin_eq_none t).mp ht
      subst htn
      rw [aggMin]
      constructor
      · intro hm
        cases hm
        exact ⟨List.mem_cons_self a [], fun x hx => by
          rcases List.mem_cons.mp hx with rfl | hx
          · exact le_refl x
          · exact absurd hx (List.not_mem_nil x)⟩
      · rintro ⟨hm, _⟩
        rcases List.mem_cons.mp hm with rfl | hm
        · rfl
        · exact absurd hm (List.not_mem_nil m)
    | some b =>
      have hb := (ih b).mp ht
      rw [aggMin, ht]
      constructor
      · intro hm
        have hm' : m = min a b := by cases hm; rfl
        subst hm'
        refine ⟨?_, fun x hx => ?_⟩
        · rcases min_choice a b with hc | hc <;> rw [hc]
          · exact List.mem_cons_self a t
          · exact List.mem_cons_of_mem a hb.1
        · rcases List.mem_cons.mp hx with rfl | hx
          · exact min_le_left _ _
          · exact le_trans (min_le_right a b) (hb.2 x hx)
      · rintro ⟨hm, hlb⟩
        have h1 : m ≤ a := hlb a (List.mem_cons_self a t)
        have h2 : m ≤ b := hlb b (List.mem_cons_of_mem a hb.1)
        have h3 : min a b ≤ m := by
          rcases List.mem_cons.mp hm with rfl | hm
          · exact min_le_left _ _
          · exact le_trans (min_le_right a b) (hb.2 m hm)
        exact congrArg some (le_antisymm h3 (le_min h1 h2))

/-- Keep the first row for each key (pandas `groupby(key).head(1)` in row order). -/
def dedupFOnAux [DecidableEq β] (key : α → β) (seen : List β) : List α → List α
  | [] => []
  | a :: t =>
    if key a ∈ seen then dedupFOnAux key seen t
    else a :: dedupFOnAux key (key a :: seen) t

def dedupFOn [DecidableEq β] (key : α → β) (l : List α) : List α := dedupFOnAux key [] l

/-- SQLite applies the INTEGER affinity of the left operand to text values on the
right of an `IN` list: a text value equals an integer only if it reads as that
integer.  (`String.toInt?` does not reduce in the kernel, so the digit parser is
written out.) -/
def parseDigitsAux : List Char → Nat → Option Nat
  | [], acc => some acc
  | c :: t, acc =>
    if '0' ≤ c ∧ c ≤ '9' then parseDigitsAux t (acc * 10 + (c.toNat - '0'.toNat))
    else none

def sqliteTextAsInt (s : String) : Option Int :=
  match s.data with
  | [] => none
  | '-' :: [] => none
  | '-' :: ds => (parseDigitsAux ds 0).map (fun n => -(n : Int))
  | ds => (parseDigitsAux ds 0).map (fun n => (n : Int))

/-- `kit3 NOT IN (list of bound text values)` as SQLite evaluates it for an
INTEGER column (schema.py gives `triangle.kit3` INTEGER affinity). -/
def sqliteIntNotInTexts (k : Int) (l : List String) : Bool :=
  l.all fun sv => sqliteTextAsInt sv ≠ some k

/-! ### The relational store (schema.py)

One record per table of `schema.py`; the `meta` table is represented by its
only mutable entry, the `batch` counter.  Row ids allocated by SQLite are
`max id + 1`. -/

structure KitRow where
  id : Int
  kitid : String
  name : Option String
  email : Option String
  sex : Option String
deriving Repr, DecidableEq

structure GenetmapRow where
  chromosome : String
  position : Int
  cm : Rat
deriving Repr, DecidableEq

structure SourceRow where
  kit : Int
  match_ : Option Int
  triangle : Option Int
  negative : Option Int
deriving Repr, DecidableEq

structure SegmentRow where
  id : Int
  chromosome : String
  start : Int
  end_ : Int
  length : Option Rat
deriving Repr, DecidableEq

structure MatchRow where
  segment : Int
  kit1 : Int
  kit2 : Int
  batch : Int
deriving Repr, DecidableEq

structure TriangleRow where
  segment : Int
  kit1 : Int
  kit2 : Int
  kit3 : Int
  batch : Int
deriving Repr, DecidableEq

structure OverlapRow where
  id : Int
  source : Int
  target1 : Int
  target2 : Int
  segment : Int
deriving Repr, DecidableEq

structure NegativeRow where
  overlap : Int
  neg_segment : Int
deriving Repr, DecidableEq

structure Store where
  kits : List KitRow
  sources : List SourceRow
  segments : List SegmentRow
  match_rows : List MatchRow
  triangles : List TriangleRow
  overlaps : List OverlapRow
  negatives : List NegativeRow
  genetmap : List GenetmapRow
  batch : Int
deriving Repr, DecidableEq

def next_kit_id (st : Store) : Int := (aggMax (st.kits.map (·.id))).getD 0 + 1

def next_segment_id (st : Store) : Int := (aggMax (st.segments.map (·.id))).getD 0 + 1

def next_overlap_id (st : Store) : Int := (aggMax (st.overlaps.map (·.id))).getD 0 + 1

def lookup_kitid (st : Store) (k : String) : Option Int :=
  (st.kits.find? (fun r => r.kitid == k)).map (·.id)

def lookup_segment_id (st : Store) (c : String) (s e : Int) : Option Int :=
  (st.segments.find? (fun g => g.chromosome == c && g.start == s && g.end_ == e)).map (·.id)

def find_segment (st : Store) (i : Int) : Option SegmentRow :=
  st.segments.find? (fun g => g.id == i)

/-! ### data.py -/

/-- `increment_batch`: read, add one, write back, commit. -/
def increment_batch (st : Store) : Store := { st with batch := st.batch + 1 }

/-- Insert one kitid; the unique constraint on `kitid` has `ON CONFLICT IGNORE`. -/
def insert_kit (st : Store) (k : String) : Store :=
  if st.kits.any (fun r => r.kitid == k) then st
  else { st with kits := st.kits ++ [⟨next_kit_id st, k, none, none, none⟩] }

/-- `add_sources`: insert each kit, primary key conflict ignored. -/
def add_sources (st : Store) (ks : List Int) : Store :=
  ks.foldl (fun st k =>
    if st.sources.any (fun r => r.kit == k) then st
    else { st with sources := st.sources ++ [⟨k, none, none, none⟩] }) st

structure KitDataRec where
  kit : Int
  name : Option String
  email : Option String
  sex : Option String
deriving Repr, DecidableEq

/-- `update_kit_data`: set (name, email, sex) of a kit, but only while its sex
is still null. -/
def update_kit_data (st : Store) (rs : List KitDataRec) : Store :=
  rs.foldl (fun st r =>
    { st with kits := st.kits.map fun k =>
        if k.id == r.kit && k.sex == none then
          { k with name := r.name, email := r.email, sex := r.sex }
        else k }) st

/-- Insert one segment triple; unique on (chromosome, start, end) with
`ON CONFLICT IGNORE`; the freshly inserted row has null length. -/
def insert_segment (st : Store) (t : String × Int × Int) : Store :=
  if st.segments.any (fun g => g.chromosome == t.1 && g.start == t.2.1 && g.end_ == t.2.2) then st
  else { st with segments := st.segments ++ [⟨next_segment_id st, t.1, t.2.1, t.2.2, none⟩] }

def insert_segments (st : Store) (ts : List (String × Int × Int)) : Store :=
  ts.foldl insert_segment st

/-- The linear-interpolation term
`coalesce(((p - p1)/(p2 - p1))*(c2 - c1), 0)` of `set_segment_lengths`:
rational division by zero is 0, exactly as the SQL `coalesce(NULL, 0)` after a
division by zero. -/
def interp_cm (p p1 p2 : Int) (c1 c2 : Rat) : Rat :=
  c1 + ((p : Rat) - (p1 : Rat)) / ((p2 : Rat) - (p1 : Rat)) * (c2 - c1)

/-- The genetic-map rows joined to a segment: those on its chromosome. -/
def map_anchors (st : Store) (c : String) : List GenetmapRow :=
  st.genetmap.filter (fun g => g.chromosome == c)

/-- `max(position) filter (position ≤ p)` over the joined anchors
(`start1`/`end1` of the query). -/
def pos_before (st : Store) (c : String) (p : Int) : Option Int :=
  aggMax (((map_anchors st c).map (·.position)).filter (fun x => decide (x ≤ p)))

/-- `min(position) filter (position ≥ p)` (`start2`/`end2`). -/
def pos_after (st : Store) (c : String) (p : Int) : Option Int :=
  aggMin (((map_anchors st c).map (·.position)).filter (fun x => decide (x ≥ p)))

/-- `coalesce(start1, start2)`: the two-sided anchor position below `p`. -/
def pos1 (st : Store) (c : String) (p : Int) : Int :=
  ((pos_before st c p).orElse (fun _ => pos_after st c p)).getD 0

/-- `coalesce(start2, start1)`: the two-sided anchor position above `p`. -/
def pos2 (st : Store) (c : String) (p : Int) : Int :=
  ((pos_after st c p).orElse (fun _ => pos_before st c p)).getD 0

/-- The cm column of the anchor joined on (chromosome, position). -/
def cm_at (st : Store) (c : String) (p : Int) : Rat :=
  (((map_anchors st c).find? (fun g => g.position == p)).map (·.cm)).getD 0

/-- The cm value the query computes at one endpoint:
`cm(P1) + coalesce(((p - pos(P1)) / (pos(P2) - pos(P1))) * (cm(P2) - cm(P1)), 0)`. -/
def seg_cm (st : Store) (c : String) (p : Int) : Rat :=
  interp_cm p (pos1 st c p) (pos2 st c p) (cm_at st c (pos1 st c p)) (cm_at st c (pos2 st c p))

/-- `set_segment_lengths`: for each null-length segment joined to the genetic
map on its chromosome, bracket start and end by the nearest map positions and
interpolate; length = cm at end minus cm at start.  Segments with no map row
on their chromosome produce no join row and stay untouched. -/
def set_segment_lengths (st : Store) : Store :=
  { st with segments := st.segments.map fun seg =>
      match seg.length with
      | some _ => seg
      | none =>
        if (map_anchors st seg.chromosome).isEmpty then seg
        else { seg with length := some (seg_cm st seg.chromosome seg.end_
                          - seg_cm st seg.chromosome seg.start) } }

/-- `as_internal_segment` commits the new segment rows, then commits the
imputed lengths; the two committed states, in order. -/
def as_internal_segment_states (st : Store) (ts : List (String × Int × Int)) : List Store :=
  let st1 := insert_segments st (dedupF ts)
  [st1, set_segment_lengths st1]

/-- Insert one match row; unique on (segment, kit1, kit2) with IGNORE. -/
def insert_match (st : Store) (m : MatchRow) : Store :=
  if st.match_rows.any (fun x => x.segment == m.segment && x.kit1 == m.kit1 && x.kit2 == m.kit2)
  then st
  else { st with match_rows := st.match_rows ++ [m] }

/-- Insert one triangle row; unique on (segment, kit1, kit2, kit3) with IGNORE. -/
def insert_triangle (st : Store) (t : TriangleRow) : Store :=
  if st.triangles.any (fun x => x.segment == t.segment && x.kit1 == t.kit1 &&
      x.kit2 == t.kit2 && x.kit3 == t.kit3)
  then st
  else { st with triangles := st.triangles ++ [t] }

structure MatchInput where
  kit1 : String
  kit2 : String
  chromosome : String
  start : Int
  end_ : Int
  length : Option Rat
  name : Option String
  email : Option String
  sex : Option String
deriving Repr, DecidableEq

/-- `import_matches`, as the list of committed store states, in order:
kit inserts; kit metadata; sources; segment inserts; imputed lengths; batch
increment; match rows and `source.match` watermark (one transaction). -/
def im_st1 (st : Store) (rows : List MatchInput) : Store :=
  (dedupF ((rows.map (·.kit1)) ++ (rows.map (·.kit2)))).foldl insert_kit st

/-- Internal id resolution against the state holding all the file's kits. -/
def im_ik (st : Store) (rows : List MatchInput) (k : String) : Int :=
  (lookup_kitid (im_st1 st rows) k).getD 0

def im_st2 (st : Store) (rows : List MatchInput) : Store :=
  update_kit_data (im_st1 st rows) ((dedupFOn (fun r => r.kit2) rows).map
    (fun r => KitDataRec.mk (im_ik st rows r.kit2) r.name r.email r.sex))

def im_st3 (st : Store) (rows : List MatchInput) : Store :=
  add_sources (im_st2 st rows) (dedupF (rows.map (fun r => im_ik st rows r.kit1)))

def im_st4 (st : Store) (rows : List MatchInput) : Store :=
  insert_segments (im_st3 st rows)
    (dedupF ((dedupFOn (fun r => (r.chromosome, r.start, r.end_)) rows).map
      (fun r => (r.chromosome, r.start, r.end_))))

def im_st5 (st : Store) (rows : List MatchInput) : Store :=
  set_segment_lengths (im_st4 st rows)

def im_st6 (st : Store) (rows : List MatchInput) : Store :=
  increment_batch (im_st5 st rows)

def im_iseg (st : Store) (rows : List MatchInput) (r : MatchInput) : Int :=
  (lookup_segment_id (im_st4 st rows) r.chromosome r.start r.end_).getD 0

/-- The match rows inserted: both orderings, stamped with the new batch. -/
def im_rows (st : Store) (rows : List MatchInput) : List MatchRow :=
  (rows.map (fun r => MatchRow.mk (im_iseg st rows r) (im_ik st rows r.kit1)
    (im_ik st rows r.kit2) (im_st6 st rows).batch))
  ++ (rows.map (fun r => MatchRow.mk (im_iseg st rows r) (im_ik st rows r.kit2)
    (im_ik st rows r.kit1) (im_st6 st rows).batch))

def im_st7a (st : Store) (rows : List MatchInput) : Store :=
  (im_rows st rows).foldl insert_match (im_st6 st rows)

/-- The kits whose watermark is set: `kit1` of the stored batch rows. -/
def im_updated (st : Store) (rows : List MatchInput) : List Int :=
  dedupF (((im_st7a st rows).match_rows.filter
    (fun m => m.batch == (im_st6 st rows).batch)).map (·.kit1))

def im_st7 (st : Store) (rows : List MatchInput) : Store :=
  { im_st7a st rows with sources := (im_st7a st rows).sources.map fun s =>
      if s.kit ∈ im_updated st rows
      then { s with match_ := some (im_st6 st rows).batch } else s }

def import_matches_states (st : Store) (rows : List MatchInput) : List Store :=
  [im_st1 st rows, im_st2 st rows, im_st3 st rows, im_st4 st rows, im_st5 st rows,
    im_st6 st rows, im_st7 st rows]

def import_matches (st : Store) (rows : List MatchInput) : Store :=
  (import_matches_states st rows).getLastD st

structure TriangleInput where
  kit1 : String
  kit2 : String
  kit3 : String
  chromosome : String
  start : Int
  end_ : Int
  length : Option Rat
  name2 : Option String
  email2 : Option String
  name3 : Option String
  email3 : Option String
deriving Repr, DecidableEq

def it_st1 (st : Store) (rows : List TriangleInput) : Store :=
  (dedupF ((rows.map (·.kit1)) ++ (rows.map (·.kit2)) ++ (rows.map (·.kit3)))).foldl
    insert_kit st

def it_ik (st : Store) (rows : List TriangleInput) (k : String) : Int :=
  (lookup_kitid (it_st1 st rows) k).getD 0

def it_st2 (st : Store) (rows : List TriangleInput) : Store :=
  update_kit_data (it_st1 st rows)
    ((dedupF ((rows.filterMap (fun r =>
        match r.name2, r.email2 with
        | some n, some e => some (it_ik st rows r.kit2, n, e)
        | _, _ => none))
      ++ (rows.filterMap (fun r =>
        match r.name3, r.email3 with
        | some n, some e => some (it_ik st rows r.kit3, n, e)
        | _, _ => none)))).map
      (fun x => KitDataRec.mk x.1 (some x.2.1) (some x.2.2) none))

def it_st3 (st : Store) (rows : List TriangleInput) : Store :=
  add_sources (it_st2 st rows) (dedupF (rows.map (fun r => it_ik st rows r.kit1)))

def it_st4 (st : Store) (rows : List TriangleInput) : Store :=
  insert_segments (it_st3 st rows)
    (dedupF ((dedupFOn (fun r => (r.chromosome, r.start, r.end_)) rows).map
      (fun r => (r.chromosome, r.start, r.end_))))

def it_st5 (st : Store) (rows : List TriangleInput) : Store :=
  set_segment_lengths (it_st4 st rows)

def it_st6 (st : Store) (rows : List TriangleInput) : Store :=
  increment_batch (it_st5 st rows)

def it_iseg (st : Store) (rows : List TriangleInput) (r : TriangleInput) : Int :=
  (lookup_segment_id (it_st4 st rows) r.chromosome r.start r.end_).getD 0

/-- The six inserted orderings of each triangle, stamped with the new batch. -/
def it_perms (st : Store) (rows : List TriangleInput) : List TriangleRow :=
  let base := rows.map (fun r =>
    (it_iseg st rows r, it_ik st rows r.kit1, it_ik st rows r.kit2, it_ik st rows r.kit3))
  let B := (it_st6 st rows).batch
  base.map (fun x => TriangleRow.mk x.1 x.2.1 x.2.2.1 x.2.2.2 B)
    ++ base.map (fun x => TriangleRow.mk x.1 x.2.2.1 x.2.1 x.2.2.2 B)
    ++ base.map (fun x => TriangleRow.mk x.1 x.2.2.2 x.2.2.1 x.2.1 B)
    ++ base.map (fun x => TriangleRow.mk x.1 x.2.1 x.2.2.2 x.2.2.1 B)
    ++ base.map (fun x => TriangleRow.mk x.1 x.2.2.2 x.2.1 x.2.2.1 B)
    ++ base.map (fun x => TriangleRow.mk x.1 x.2.2.1 x.2.2.2 x.2.1 B)

def it_st7a (st : Store) (rows : List TriangleInput) : Store :=
  (it_perms st rows).foldl insert_triangle (it_st6 st rows)

def it_updated (st : Store) (rows : List TriangleInput) : List Int :=
  dedupF (((it_st7a st rows).triangles.filter
    (fun t => t.batch == (it_st6 st rows).batch)).map (·.kit1))

def it_st7 (st : Store) (rows : List TriangleInput) : Store :=
  { it_st7a st rows with sources := (it_st7a st rows).sources.map fun s =>
      if s.kit ∈ it_updated st rows
      then { s with triangle := some (it_st6 st rows).batch } else s }

/-- `import_triangles`, as the list of committed store states, in order. -/
def import_triangles_states (st : Store) (rows : List TriangleInput) : List Store :=
  [it_st1 st rows, it_st2 st rows, it_st3 st rows, it_st4 st rows, it_st5 st rows,
    it_st6 st rows, it_st7 st rows]

def import_triangles (st : Store) (rows : List TriangleInput) : Store :=
  (import_triangles_states st rows).getLastD st

/-! ### cluster.py -/

/-- factor for weighting pairwise matches in the graph; triangles have weight 1 -/
def PAIRWISE_FACTOR : Rat := 0.25

structure Edge where
  kit1 : Int
  kit2 : Int
  weight : Rat
deriving Repr, DecidableEq

structure SeedRow where
  kit : Int
  label : String
deriving Repr, DecidableEq

/-- `GROUP BY (kit1, kit2)` with `sum` over the third component. -/
def group_pair_sum (rows : List (Int × Int × Rat)) : List Edge :=
  (dedupF (rows.map (fun x => (x.1, x.2.1)))).map fun k =>
    Edge.mk k.1 k.2 (((rows.filter (fun x => x.1 == k.1 && x.2.1 == k.2)).map (·.2.2)).sum)

/-- The row selection of `graph_query`: match rows joined to segments with
`length ≥ min_length` and `kit1 ≠ kit2`. -/
def graph_rows (st : Store) (min_length : Rat) : List (Int × Int × Rat) :=
  st.match_rows.filterMap fun m =>
    match find_segment st m.segment with
    | none => none
    | some g =>
      match g.length with
      | none => none
      | some l =>
        if min_length ≤ l ∧ m.kit1 ≠ m.kit2 then some (m.kit1, m.kit2, l) else none

/-- The pairwise half of the base graph, weights summed per directed pair. -/
def graph_query (st : Store) (min_length : Rat) : List Edge :=
  group_pair_sum (graph_rows st min_length)

/-- The row selection of `triangle_query`.  The `kit3 NOT IN (...)` filter is
evaluated against `config.exclude`, which holds the *external* kitid strings
of the configuration, while `kit3` is an internal integer id — exactly as the
source does. -/
def triangle_rows (st : Store) (min_length : Rat) (exclude : List String) :
    List (Int × Int × Rat) :=
  st.triangles.filterMap fun t =>
    match find_segment st t.segment with
    | none => none
    | some g =>
      match g.length with
      | none => none
      | some l =>
        if min_length ≤ l ∧ t.kit1 ≠ t.kit2 ∧ sqliteIntNotInTexts t.kit3 exclude = true
        then some (t.kit1, t.kit2, l) else none

/-- The triangle half of the base graph. -/
def triangle_query (st : Store) (min_length : Rat) (exclude : List String) : List Edge :=
  group_pair_sum (triangle_rows st min_length exclude)

def graph_weight (g : List Edge) (a b : Int) : Option Rat :=
  (g.find? (fun e => e.kit1 == a && e.kit2 == b)).map (·.weight)

/-- pandas `g1.set_index([kit1,kit2]).add(g2.set_index([kit1,kit2]), fill_value=0)`:
union of the keys (sorted), missing side counted as 0. -/
def add_graphs (g1 g2 : List Edge) : List Edge :=
  let keys := insSort (fun x y => x.1 < y.1 || (x.1 == y.1 && x.2 ≤ y.2))
    (dedupF ((g1.map fun e => (e.kit1, e.kit2)) ++ (g2.map fun e => (e.kit1, e.kit2))))
  keys.map fun k =>
    Edge.mk k.1 k.2 (((graph_weight g1 k.1 k.2).getD 0) + ((graph_weight g2 k.1 k.2).getD 0))

/-- The base graph assembled by `cluster_data`:
`PAIRWISE_FACTOR` times the pairwise weights, plus the triangle weights. -/
def base_graph (st : Store) (min_length : Rat) (exclude : List String) : List Edge :=
  let graph := (graph_query st min_length).map fun e =>
    { e with weight := PAIRWISE_FACTOR * e.weight }
  add_graphs graph (triangle_query st min_length exclude)

/-- `match_include_query` of the include expansion: neighbors of an included
kit over match segments with length **strictly** greater than the bound. -/
def match_include_query (st : Store) (k : Int) (length : Rat) : List Int :=
  dedupF <| st.match_rows.filterMap fun m =>
    if m.kit1 == k then
      match find_segment st m.segment with
      | some g =>
        match g.length with
        | some l => if length < l then some m.kit2 else none
        | none => none
      | none => none
    else none

/-- `tri_include_query`, same with triangles. -/
def tri_include_query (st : Store) (k : Int) (length : Rat) : List Int :=
  dedupF <| st.triangles.filterMap fun t =>
    if t.kit1 == k then
      match find_segment st t.segment with
      | some g =>
        match g.length with
        | some l => if length < l then some t.kit2 else none
        | none => none
      | none => none
    else none

/-- Kits with a non-null triangle watermark (`trisource_query`). -/
def trisource_query (st : Store) : List Int :=
  (st.sources.filter (fun s => s.triangle ≠ none)).map (·.kit)

/-- `autox_query`: kits matching a seed on chromosome X with
`length ≥ min_length`. -/
def autox_query (st : Store) (min_length : Rat) (seed : Int) : List Int :=
  dedupF <| st.match_rows.filterMap fun m =>
    if m.kit1 == seed then
      match find_segment st m.segment with
      | some g =>
        if g.chromosome == "X" then
          match g.length with
          | some l => if min_length ≤ l then some m.kit2 else none
          | none => none
        else none
      | none => none
    else none

/-! #### `get_clusters` -/

structure LabelRow where
  kit : Int
  weight : Rat
  label : Option String
  paternal : Rat
  confidence : Rat
deriving Repr, DecidableEq

structure ClusterRow where
  kit : Int
  label : String
  confidence : Option Rat
deriving Repr, DecidableEq

/-- Per-vertex total of absolute edge weights (the `weight` column of
`labels`). -/
def abs_weight_sum (graph : List Edge) (k : Int) : Rat :=
  ((graph.filter (fun e => e.kit1 == k)).map (fun e => |e.weight|)).sum

def label_of (labels : List LabelRow) (k : Int) : Option String :=
  (labels.find? (fun r => r.kit == k)).bind (·.label)

/-- `seg_sum` for one vertex and one label: the sum of weights of its out-edges
whose target currently carries that label. -/
def seg_sum (graph : List Edge) (labels : List LabelRow) (k : Int) (lbl : String) : Rat :=
  ((graph.filter (fun e => e.kit1 == k && label_of labels e.kit2 == some lbl)).map (·.weight)).sum

/-- One round of the loop body of `get_clusters`: recompute `paternal` and
`confidence` for every vertex from the current labels. -/
def compute_round (graph : List Edge) (labels : List LabelRow) : List LabelRow :=
  labels.map fun r =>
    let p := seg_sum graph labels r.kit "P" - seg_sum graph labels r.kit "M"
    { r with paternal := p, confidence := |p| / r.weight }

/-- A vertex is available for update (with `fix_seeds = True`, the only mode
used). -/
def available (seeds : List SeedRow) (r : LabelRow) : Bool :=
  ((r.label == none) || (r.label == some "P" && decide (r.paternal < 0))
      || (r.label == some "M" && decide (0 < r.paternal)))
    && decide (0 < r.confidence)
    && !(seeds.any (fun s => s.kit == r.kit))

/-- `iloc[argmax confidence]`: numpy argmax returns the first position of the
maximum, so among ties the earliest row of the (kit-sorted) frame wins. -/
def argmaxConf : List LabelRow → Option LabelRow
  | [] => none
  | r :: rs =>
    match argmaxConf rs with
    | none => some r
    | some b => if b.confidence > r.confidence then some b else some r

def update_label (labels : List LabelRow) (k : Int) (lbl : String) : List LabelRow :=
  labels.map fun r => if r.kit == k then { r with label := some lbl } else r

/-- The bounded greedy loop of `get_clusters`.  The fuel counts the updates
still allowed (`max_rounds = 2·|labels|`); when it runs out, or when no vertex
is available, the last computed columns are kept. -/
def gc_loop (graph : List Edge) (seeds : List SeedRow) : Nat → List LabelRow → List LabelRow
  | 0, labels => compute_round graph labels
  | fuel+1, labels =>
    let l' := compute_round graph labels
    match argmaxConf (l'.filter (available seeds)) with
    | none => l'
    | some r =>
      let lbl := if 0 < r.paternal then "P" else "M"
      gc_loop graph seeds fuel (update_label l' r.kit lbl)

/-- `get_clusters(graph, seeds)` (with the default `max_rounds=None`,
`fix_seeds=True`).  Output rows are the surviving label rows (null label
becomes `""`), together with the isolated seeds, whose `confidence` column is
missing (null). -/
def get_clusters (graph : List Edge) (seeds : List SeedRow) : List ClusterRow :=
  let kits1 := insSort (fun a b => a ≤ b) (dedupF (graph.map (·.kit1)))
  let labels0 := kits1.filterMap fun k =>
    let w := abs_weight_sum graph k
    if 0 < w then
      some (LabelRow.mk k w ((seeds.find? (fun s => s.kit == k)).map (·.label)) 0 0)
    else none
  let labels := gc_loop graph seeds (2 * labels0.length) labels0
  let out := labels.map fun r => ClusterRow.mk r.kit (r.label.getD "") (some r.confidence)
  let isolated := (seeds.filter (fun s => !(labels.any (fun r => r.kit == s.kit)))).map
    fun s => ClusterRow.mk s.kit s.label none
  out ++ isolated

/-! #### `build_negative` -/

def pyFalsy : Option Int → Bool
  | none => true
  | some v => v == 0

structure ValidMatch where
  target : Int
  chromosome : String
  start : Int
  end_ : Int
deriving Repr, DecidableEq

structure OverlapCand where
  target1 : Int
  target2 : Int
  chromosome : String
  start : Int
  end_ : Int
deriving Repr, DecidableEq

structure NegOverlapRow where
  overlap : Int
  chromosome : String
  start : Int
  end_ : Int
  tri_start : Option Int
  tri_end : Option Int
deriving Repr, DecidableEq

structure NegTriRow where
  overlap : Int
  chromosome : String
  start : Int
  end_ : Int
deriving Repr, DecidableEq

def insert_overlap (st : Store) (s t1 t2 seg : Int) : Store :=
  if st.overlaps.any (fun o => o.source == s && o.target1 == t1 && o.target2 == t2 &&
      o.segment == seg)
  then st
  else { st with overlaps := st.overlaps ++ [⟨next_overlap_id st, s, t1, t2, seg⟩] }

def insert_negative (st : Store) (n : NegativeRow) : Store :=
  if st.negatives.any (fun x => x.overlap == n.overlap && x.neg_segment == n.neg_segment)
  then st
  else { st with negatives := st.negatives ++ [n] }

/-- The triangle rows on an overlap's (source, target1, target2) kit triple:
the join condition of `select_neg_overlap`. -/
def overlap_tris (st : Store) (o : OverlapRow) : List TriangleRow :=
  st.triangles.filter fun t =>
    o.source == t.kit1 && o.target1 == t.kit2 && o.target2 == t.kit3

/-- `select_neg_overlap`: overlap rows of the source, left-joined to the
triangles on the same (source, target1, target2) kit triple and their
segments, keeping rows with no triangle at all, or whose triangle segment
intersects the overlap interval on the same chromosome. -/
def select_neg_overlap (st : Store) (s_kit : Int) : List NegOverlapRow :=
  (st.overlaps.filter (fun o => o.source == s_kit)).flatMap fun o =>
    match find_segment st o.segment with
    | none => []
    | some so =>
      if (overlap_tris st o).isEmpty
      then [⟨o.id, so.chromosome, so.start, so.end_, none, none⟩]
      else (overlap_tris st o).filterMap fun t =>
        match find_segment st t.segment with
        | none => some ⟨o.id, so.chromosome, so.start, so.end_, none, none⟩
        | some gt =>
          if gt.chromosome == so.chromosome ∧ gt.start ≤ so.end_ ∧ so.start ≤ gt.end_
          then some ⟨o.id, so.chromosome, so.start, so.end_, some gt.start, some gt.end_⟩
          else none

/-- The cursor walk over one overlap: emit `[c, ts]` whenever the next
positive starts past the cursor, then move the cursor to that positive's end
(the code has no `max`), and finally emit `[c, end]` if the cursor stopped
short. -/
def neg_walk (c e : Int) : List (Int × Int) → List (Int × Int)
  | [] => if c < e then [(c, e)] else []
  | (ts, te) :: rest => if c < ts then (c, ts) :: neg_walk te e rest else neg_walk te e rest

/-- The rows of `neg_overlap` with null triangle columns (`neg_base`). -/
def neg_base (rows : List NegOverlapRow) : List NegTriRow :=
  dedupF (rows.filterMap fun r =>
    if r.tri_start.isNone then some ⟨r.overlap, r.chromosome, r.start, r.end_⟩ else none)

def neg_positives (rows : List NegOverlapRow) : List (Int × String × Int × Int × Int × Int) :=
  rows.filterMap fun r =>
    match r.tri_start, r.tri_end with
    | some ts, some te => some (r.overlap, r.chromosome, r.start, r.end_, ts, te)
    | _, _ => none

/-- The sorted, deduplicated (overlap, chromosome) group keys of the non-null
query rows, as pandas `groupby` sorts them. -/
def neg_keys (rows : List NegOverlapRow) : List (Int × String) :=
  insSort (fun a b => a.1 ≤ b.1) (dedupF ((neg_positives rows).map (fun x => (x.1, x.2.1))))

/-- One group of the non-null query rows. -/
def neg_group (rows : List NegOverlapRow) (key : Int × String) :
    List (Int × String × Int × Int × Int × Int) :=
  (neg_positives rows).filter (fun x => x.1 == key.1 && x.2.1 == key.2)

/-- The cursor walk of one group: positives sorted by `tri_start`, the cursor
running from the group's overlap start to its overlap end. -/
def neg_group_walk (rows : List NegOverlapRow) (key : Int × String) : List NegTriRow :=
  match neg_group rows key with
  | [] => []
  | g0 :: _ =>
    (neg_walk g0.2.2.1 g0.2.2.2.1 (insSort (fun a b => a.1 ≤ b.1)
      ((neg_group rows key).map (fun x => (x.2.2.2.2.1, x.2.2.2.2.2))))).map fun iv =>
      NegTriRow.mk key.1 key.2 iv.1 iv.2

/-- `neg_remain`: group the non-null rows by (overlap, chromosome) — group
keys sorted, as pandas `groupby` sorts them — and walk each group's positives
in order of `tri_start`. -/
def neg_remain (rows : List NegOverlapRow) : List NegTriRow :=
  (neg_keys rows).flatMap (neg_group_walk rows)

/-- The negative rows persisted by a rebuild for source `s_kit` (the
`neg_tri` frame of `build_negative`), restricted to one overlap id. -/
def overlap_neg_rows (st : Store) (s_kit oid : Int) : List NegTriRow :=
  (dedupF (neg_base (select_neg_overlap st s_kit) ++
    neg_remain (select_neg_overlap st s_kit))).filter (fun r => r.overlap == oid)

/-- The positive triangle intervals the query records for one overlap id. -/
def overlap_pos_rows (st : Store) (s_kit oid : Int) : List (Int × Int) :=
  ((neg_positives (select_neg_overlap st s_kit)).filter (fun x => x.1 == oid)).map
    (fun x => (x.2.2.2.2.1, x.2.2.2.2.2))

/-- The candidate overlap intervals of a rebuild: pairs of valid matches of
the source (to targets it triangulates with) overlapping on a chromosome. -/
def bn_match_overlap (st : Store) (s_kit : Int) : List OverlapCand :=
  let valid_neg_targets :=
    dedupF ((st.triangles.filter (fun t => t.kit1 == s_kit)).map (·.kit2))
  let valid_matches := valid_neg_targets.flatMap fun tg =>
    (st.match_rows.filter (fun m => m.kit1 == s_kit && m.kit2 == tg)).filterMap fun m =>
      (find_segment st m.segment).map fun g =>
        ValidMatch.mk tg g.chromosome g.start g.end_
  valid_matches.flatMap fun m1 =>
    valid_matches.filterMap fun m2 =>
      if m1.target ≠ m2.target ∧ m1.chromosome = m2.chromosome ∧
          m1.start < m2.end_ ∧ m2.start < m1.end_
      then some (OverlapCand.mk m1.target m2.target m1.chromosome
          (max m1.start m2.start) (min m1.end_ m2.end_))
      else none

/-- First committed state of a rebuild: the overlap segments inserted. -/
def bn_st1 (st : Store) (s_kit : Int) : Store :=
  insert_segments st
    (dedupF ((bn_match_overlap st s_kit).map fun c => (c.chromosome, c.start, c.end_)))

/-- Second committed state: the new segment lengths imputed. -/
def bn_st2 (st : Store) (s_kit : Int) : Store := set_segment_lengths (bn_st1 st s_kit)

/-- Third committed state: the overlap rows inserted. -/
def bn_st3 (st : Store) (s_kit : Int) : Store :=
  (bn_match_overlap st s_kit).foldl (fun acc c =>
    insert_overlap acc s_kit c.target1 c.target2
      ((lookup_segment_id (bn_st1 st s_kit) c.chromosome c.start c.end_).getD 0))
    (bn_st2 st s_kit)

/-- The overlap-versus-triangle query of a rebuild, over the third state. -/
def bn_neg_overlap (st : Store) (s_kit : Int) : List NegOverlapRow :=
  select_neg_overlap (bn_st3 st s_kit) s_kit

/-- The deduplicated negative intervals of a rebuild. -/
def bn_neg_tri (st : Store) (s_kit : Int) : List NegTriRow :=
  dedupF (neg_base (bn_neg_overlap st s_kit) ++ neg_remain (bn_neg_overlap st s_kit))

/-- Fourth committed state: the negative segments inserted. -/
def bn_st4 (st : Store) (s_kit : Int) : Store :=
  insert_segments (bn_st3 st s_kit)
    (dedupF ((bn_neg_tri st s_kit).map fun c => (c.chromosome, c.start, c.end_)))

/-- Fifth committed state: the new segment lengths imputed again. -/
def bn_st5 (st : Store) (s_kit : Int) : Store := set_segment_lengths (bn_st4 st s_kit)

/-- The negative rows of a rebuild, resolved to segment ids. -/
def bn_neg_rows (st : Store) (s_kit : Int) : List NegativeRow :=
  (bn_neg_tri st s_kit).map fun c =>
    NegativeRow.mk c.overlap
      ((lookup_segment_id (bn_st4 st s_kit) c.chromosome c.start c.end_).getD 0)

/-- The sixth state before the watermark update: negative rows inserted. -/
def bn_st6a (st : Store) (s_kit : Int) : Store :=
  (bn_neg_rows st s_kit).foldl insert_negative (bn_st5 st s_kit)

/-- Sixth committed state: negatives inserted and the watermark set. -/
def bn_st6 (st : Store) (s_kit : Int) (batch : Int) : Store :=
  { bn_st6a st s_kit with sources := (bn_st6a st s_kit).sources.map fun r =>
      if r.kit == s_kit then { r with negative := some batch } else r }

/-- `build_negative(engine, s_kit)`: the returned flag together with the list
of committed store states, in order.  The delete of pre-existing overlap rows
is executed on a connection that is closed without commit, hence rolled back,
and therefore does not appear as a state change. -/
def build_negative_states (st : Store) (s_kit : Int) : Bool × List Store :=
  match st.sources.find? (fun r => r.kit == s_kit) with
  | none => (false, [])
  | some status =>
    if pyFalsy status.match_ || pyFalsy status.triangle then (false, [])
    else
      if max (status.match_.getD 0) (status.triangle.getD 0) ≤ status.negative.getD 0
      then (true, [])
      else if (bn_match_overlap st s_kit).isEmpty then (true, [])
      else if (bn_neg_overlap st s_kit).isEmpty
      then (true, [bn_st1 st s_kit, bn_st2 st s_kit, bn_st3 st s_kit])
      else if (bn_neg_tri st s_kit).isEmpty
      then (true, [bn_st1 st s_kit, bn_st2 st s_kit, bn_st3 st s_kit])
      else (true, [bn_st1 st s_kit, bn_st2 st s_kit, bn_st3 st s_kit, bn_st4 st s_kit,
        bn_st5 st s_kit,
        bn_st6 st s_kit (max (status.match_.getD 0) (status.triangle.getD 0))])

def build_negative (st : Store) (s_kit : Int) : Bool × Store :=
  let r := build_negative_states st s_kit
  (r.1, r.2.getLastD st)

/-- `get_negative`: refresh the cache, then aggregate the negative segment
lengths of the source per (target1, target2) pair, negated. -/
def get_negative (st : Store) (s_kit : Int) (min_length : Rat) : List Edge × Store :=
  let st' := (build_negative st s_kit).2
  let rows := st'.negatives.flatMap fun n =>
    (st'.overlaps.filter (fun o => o.id == n.overlap && o.source == s_kit)).filterMap fun o =>
      match find_segment st' n.neg_segment with
      | none => none
      | some g =>
        match g.length with
        | some l => if min_length ≤ l then some (o.target1, o.target2, -l) else none
        | none => none
  (group_pair_sum rows, st')

/-! #### Seed trees and `cluster_data`

The `SeedTree.branches` dict can only hold the keys `M` and `P` (inserted in
that order), so the tree is represented with one constructor per shape; a
`Seed` is as in the source. -/

structure Seed where
  kit : Int
  floating : Bool
  negative : Bool
deriving Repr, DecidableEq

inductive SeedTree where
  | n0 (ahnentafel : Nat) (values : List Seed)
  | nM (ahnentafel : Nat) (values : List Seed) (m : SeedTree)
  | nP (ahnentafel : Nat) (values : List Seed) (p : SeedTree)
  | nMP (ahnentafel : Nat) (values : List Seed) (m p : SeedTree)
deriving Repr, DecidableEq

def SeedTree.ahn : SeedTree → Nat
  | .n0 a _ => a
  | .nM a _ _ => a
  | .nP a _ _ => a
  | .nMP a _ _ _ => a

def SeedTree.values : SeedTree → List Seed
  | .n0 _ v => v
  | .nM _ v _ => v
  | .nP _ v _ => v
  | .nMP _ v _ _ => v

/-- `flatten`: branch dicts first (M, then P), own values last; a later entry
overrides an earlier one, as the Python dict update does. -/
def flatten : SeedTree → List (Int × Nat)
  | .n0 a vs => vs.map (fun v => (v.kit, a))
  | .nM a vs m => flatten m ++ vs.map (fun v => (v.kit, a))
  | .nP a vs p => flatten p ++ vs.map (fun v => (v.kit, a))
  | .nMP a vs m p => flatten m ++ flatten p ++ vs.map (fun v => (v.kit, a))

/-- Dict lookup on an insertion-ordered association list: the last binding of
a key wins. -/
def flat_lookup (l : List (Int × Nat)) (k : Int) : Option Nat :=
  (l.reverse.find? (fun x => x.1 == k)).map (·.2)

structure RawSeed where
  id : String
  autox : Bool
  float : Option Bool
  negative : Bool
deriving Repr, DecidableEq

inductive RawTree where
  | n0 (kits : List RawSeed)
  | nM (kits : List RawSeed) (maternal : RawTree)
  | nP (kits : List RawSeed) (paternal : RawTree)
  | nMP (kits : List RawSeed) (maternal paternal : RawTree)
deriving Repr, DecidableEq

structure IncludeItem where
  id : String
  matches_ : Option Rat
  triangles : Option Rat
deriving Repr, DecidableEq

structure ClusterConfig where
  include_ : List IncludeItem
  exclude : List String
  min_length : Rat
  tree : RawTree
  seeds : List String
deriving Repr, DecidableEq

/-- The `for k in raw.get('kits', [])` loop of `build_seed_tree`: default
`floating` from `trisource`, run the auto-X query for each `autox` seed,
remove excluded and already-seeded kits from its result, and extend the
global seed set.  Returns (parsed values, auto-X kits collected, updated seed
set); fails on an unknown kit id. -/
def process_raw_seeds (st : Store) (kitmap : String → Option Int) (min_length : Rat)
    (exclude : List Int) (trisource : List Int) :
    List RawSeed → List Int → Option (List Seed × List Int × List Int)
  | [], seeds => some ([], [], seeds)
  | k :: rest, seeds =>
    match kitmap k.id with
    | none => none
    | some kitlocal =>
      let floating := k.float.getD (!(trisource.contains kitlocal))
      let kautox :=
        if k.autox then
          (autox_query st min_length kitlocal).filter
            (fun x => !(exclude.contains x) && !(seeds.contains x))
        else []
      match process_raw_seeds st kitmap min_length exclude trisource rest (seeds ++ kautox) with
      | none => none
      | some (vals, ax, seeds') =>
        some (Seed.mk kitlocal floating k.negative :: vals, kautox ++ ax, seeds')

/-- Attach the auto-X floating seeds to the (possibly fresh) M branch. -/
def SeedTree.append_values : SeedTree → List Seed → SeedTree
  | .n0 a vs, xs => .n0 a (vs ++ xs)
  | .nM a vs m, xs => .nM a (vs ++ xs) m
  | .nP a vs p, xs => .nP a (vs ++ xs) p
  | .nMP a vs m p, xs => .nMP a (vs ++ xs) m p

/-- `build_seed_tree(raw, ahnentafel)`, threading the mutable seed set through
the node's own kits (auto-X), then the maternal branch, then the paternal
branch; auto-X kits are appended to the M child as floating seeds, creating
the child when absent. -/
def build_seed_tree (st : Store) (kitmap : String → Option Int) (min_length : Rat)
    (exclude : List Int) (trisource : List Int) :
    RawTree → Nat → List Int → Option (SeedTree × List Int)
  | .n0 ks, a, seeds =>
    match process_raw_seeds st kitmap min_length exclude trisource ks seeds with
    | none => none
    | some (vals, ax, seeds1) =>
      if ax.isEmpty then some (SeedTree.n0 a vals, seeds1)
      else some (SeedTree.nM a vals (SeedTree.n0 (1+2*a) (ax.map (fun x => Seed.mk x true false))),
        seeds1)
  | .nM ks rm, a, seeds =>
    match process_raw_seeds st kitmap min_length exclude trisource ks seeds with
    | none => none
    | some (vals, ax, seeds1) =>
      match build_seed_tree st kitmap min_length exclude trisource rm (1+2*a) seeds1 with
      | none => none
      | some (tm, seeds2) =>
        some (SeedTree.nM a vals (tm.append_values (ax.map (fun x => Seed.mk x true false))),
          seeds2)
  | .nP ks rp, a, seeds =>
    match process_raw_seeds st kitmap min_length exclude trisource ks seeds with
    | none => none
    | some (vals, ax, seeds1) =>
      match build_seed_tree st kitmap min_length exclude trisource rp (2*a) seeds1 with
      | none => none
      | some (tp, seeds2) =>
        if ax.isEmpty then some (SeedTree.nP a vals tp, seeds2)
        else some (SeedTree.nMP a vals
          (SeedTree.n0 (1+2*a) (ax.map (fun x => Seed.mk x true false))) tp, seeds2)
  | .nMP ks rm rp, a, seeds =>
    match process_raw_seeds st kitmap min_length exclude trisource ks seeds with
    | none => none
    | some (vals, ax, seeds1) =>
      match build_seed_tree st kitmap min_length exclude trisource rm (1+2*a) seeds1 with
      | none => none
      | some (tm, seeds2) =>
        match build_seed_tree st kitmap min_length exclude trisource rp (2*a) seeds2 with
        | none => none
        | some (tp, seeds3) =>
          some (SeedTree.nMP a vals
            (tm.append_values (ax.map (fun x => Seed.mk x true false))) tp, seeds3)

/-! #### `recursive_cluster` -/

structure RRow where
  kit : Int
  ahnentafel : Int
  cols : List (Nat × String × Option Rat)
deriving Repr, DecidableEq

/-- The prologue shared by every node of `recursive_cluster`: fold the
negative graphs of the negative seeds into `tri_graph` (threading the store
through `get_negative`), drop the non-floating seeds from the kit universe,
and restrict both graphs to the surviving kits. -/
def rc_prep (st : Store) (min_length : Rat) (kits : List Int) (values : List Seed)
    (graph : List Edge) : List Int × List Edge × List Edge × Store :=
  let folded := values.foldl (fun (acc : List Edge × Store) sk =>
    if sk.negative then
      let r := get_negative acc.2 sk.kit min_length
      (add_graphs acc.1 r.1, r.2)
    else acc) (graph, st)
  let nonfloat := (values.filter (fun sk => !sk.floating)).map (·.kit)
  let kits' := kits.filter (fun k => !(nonfloat.contains k))
  let graph' := graph.filter (fun e => kits'.contains e.kit1 && kits'.contains e.kit2)
  let tri_graph' := folded.1.filter (fun e => kits'.contains e.kit1 && kits'.contains e.kit2)
  (kits', graph', tri_graph', folded.2)

def rc_label (clusters : List ClusterRow) (k : Int) : String :=
  ((clusters.find? (fun c => c.kit == k)).map (·.label)).getD ""

def rc_conf (clusters : List ClusterRow) (k : Int) : Option Rat :=
  (clusters.find? (fun c => c.kit == k)).bind (·.confidence)

/-- `np.select` for the ahnentafel column. -/
def rc_ahn (a : Nat) (lbl : String) : Int :=
  if lbl == "P" then ((2 * a : Nat) : Int)
  else if lbl == "M" then ((1 + 2 * a : Nat) : Int)
  else (a : Int)

def branch_seeds (lbl : String) (t : SeedTree) : List SeedRow :=
  (flatten t).map (fun x => SeedRow.mk x.1 lbl)

/-- Leaf case of `recursive_cluster`: every kit gets the node's ahnentafel,
except kits that are seeds somewhere in this subtree, which keep their seed
node's ahnentafel. -/
def rc_leaf (kits : List Int) (t : SeedTree) : List RRow :=
  kits.map fun k => RRow.mk k (((flat_lookup (flatten t) k).getD t.ahn : Nat) : Int) []

/-- A non-branch label group keeps its own row with the renamed
label/confidence columns. -/
def rc_plain_rows (clusters : List ClusterRow) (a depth : Nat) (grp : List Int) : List RRow :=
  grp.map fun k =>
    RRow.mk k (rc_ahn a (rc_label clusters k)) [(depth, rc_label clusters k, rc_conf clusters k)]

/-- `recursive_cluster(kits, tree, graph, source_neg)`: the resulting rows and
the store after the negative-cache writes.  Label groups are visited in
sorted label order (`'' < 'M' < 'P'`), matching pandas `groupby`; empty
groups are skipped, so a branch with no kits assigned to it is not recursed
into. -/
def recursive_cluster (st : Store) (min_length : Rat) (kits : List Int)
    (tree : SeedTree) (graph : List Edge) : List RRow × Store :=
  match tree with
  | .n0 a vals =>
    let pr := rc_prep st min_length kits vals graph
    (rc_leaf kits (.n0 a vals), pr.2.2.2)
  | .nM a vals m =>
    let pr := rc_prep st min_length kits vals graph
    let st1 := pr.2.2.2
    if kits.length > 0 ∧ pr.2.2.1 ≠ [] then
      let clusters := get_clusters pr.2.2.1 (branch_seeds "M" m)
      let depth := Nat.log2 a
      let grpE := kits.filter (fun k => rc_label clusters k == "")
      let grpM := kits.filter (fun k => rc_label clusters k == "M")
      let grpP := kits.filter (fun k => rc_label clusters k == "P")
      let rowsE := rc_plain_rows clusters a depth grpE
      let rm :=
        if grpM.isEmpty then ([], st1)
        else
          let r := recursive_cluster st1 min_length grpM m pr.2.1
          (r.1.map (fun x => { x with cols := x.cols ++ [(depth, "M", rc_conf clusters x.kit)] }),
            r.2)
      let rowsP := rc_plain_rows clusters a depth grpP
      (rowsE ++ rm.1 ++ rowsP, rm.2)
    else (rc_leaf kits (.nM a vals m), st1)
  | .nP a vals p =>
    let pr := rc_prep st min_length kits vals graph
    let st1 := pr.2.2.2
    if kits.length > 0 ∧ pr.2.2.1 ≠ [] then
      let clusters := get_clusters pr.2.2.1 (branch_seeds "P" p)
      let depth := Nat.log2 a
      let grpE := kits.filter (fun k => rc_label clusters k == "")
      let grpM := kits.filter (fun k => rc_label clusters k == "M")
      let grpP := kits.filter (fun k => rc_label clusters k == "P")
      let rowsE := rc_plain_rows clusters a depth grpE
      let rowsM := rc_plain_rows clusters a depth grpM
      let rp :=
        if grpP.isEmpty then ([], st1)
        else
          let r := recursive_cluster st1 min_length grpP p pr.2.1
          (r.1.map (fun x => { x with cols := x.cols ++ [(depth, "P", rc_conf clusters x.kit)] }),
            r.2)
      (rowsE ++ rowsM ++ rp.1, rp.2)
    else (rc_leaf kits (.nP a vals p), st1)
  | .nMP a vals m p =>
    let pr := rc_prep st min_length kits vals graph
    let st1 := pr.2.2.2
    if kits.length > 0 ∧ pr.2.2.1 ≠ [] then
      let clusters := get_clusters pr.2.2.1 (branch_seeds "M" m ++ branch_seeds "P" p)
      let depth := Nat.log2 a
      let grpE := kits.filter (fun k => rc_label clusters k == "")
      let grpM := kits.filter (fun k => rc_label clusters k == "M")
      let grpP := kits.filter (fun k => rc_label clusters k == "P")
      let rowsE := rc_plain_rows clusters a depth grpE
      let rm :=
        if grpM.isEmpty then ([], st1)
        else
          let r := recursive_cluster st1 min_length grpM m pr.2.1
          (r.1.map (fun x => { x with cols := x.cols ++ [(depth, "M", rc_conf clusters x.kit)] }),
            r.2)
      let rp :=
        if grpP.isEmpty then ([], rm.2)
        else
          let r := recursive_cluster rm.2 min_length grpP p pr.2.1
          (r.1.map (fun x => { x with cols := x.cols ++ [(depth, "P", rc_conf clusters x.kit)] }),
            r.2)
      (rowsE ++ rm.1 ++ rp.1, rp.2)
    else (rc_leaf kits (.nMP a vals m p), st1)

/-! #### `cluster_data` -/

structure OutRow where
  kit : Option String
  ahnentafel : Int
  seed : Option Nat
  cols : List (Nat × String × Option Rat)
deriving Repr, DecidableEq

/-- The include expansion for one include item: the included kit itself plus
its match- and triangle-neighbors over the configured strict thresholds. -/
def include_expansion (st : Store) (kitmap : String → Option Int) (it : IncludeItem) :
    Option (List Int) :=
  match kitmap it.id with
  | none => none
  | some kid =>
    let m1 := match it.matches_ with
      | some L => match_include_query st kid L
      | none => []
    let m2 := match it.triangles with
      | some L => tri_include_query st kid L
      | none => []
    some (kid :: (m1 ++ m2))

/-- `cluster_data(engine, config)`: `none` models the `typer.Exit` on a kit id
missing from the kit table; otherwise the classified rows (with external
kitids and the seed column) and the store left after the negative-cache
writes. -/
def cluster_data (st : Store) (config : ClusterConfig) : Option (List OutRow × Store) :=
  let kitmap := fun k => lookup_kitid st k
  match config.seeds.mapM kitmap, config.exclude.mapM kitmap with
  | some seeds0, some exclude0 =>
    let incQ :=
      if config.include_.isEmpty then some none
      else (config.include_.mapM (include_expansion st kitmap)).map some
    match incQ with
    | none => none
    | some incOpt =>
      let kits0 := st.kits.map (·.id)
      let kits1 := match incOpt with
        | none => kits0
        | some lists =>
          kits0.filter (fun k => (lists.flatten.contains k) || seeds0.contains k)
      let kits2 := kits1.filter (fun k => !(exclude0.contains k))
      let graph0 := base_graph st config.min_length config.exclude
      let trisource := trisource_query st
      match build_seed_tree st kitmap config.min_length exclude0 trisource config.tree 1 seeds0 with
      | none => none
      | some (tree, _) =>
        let seed_labels := flatten tree
        let rc := recursive_cluster st config.min_length kits2 tree graph0
        let kitids := fun (i : Int) =>
          ((st.kits.filter (fun k => kits2.contains k.id)).find? (fun k => k.id == i)).map (·.kitid)
        let out := rc.1.map fun r =>
          OutRow.mk (kitids r.kit) r.ahnentafel (flat_lookup seed_labels r.kit) r.cols
        some (out, rc.2)
  | _, _ => none

/-! ### Concrete stores

`scenB` is Scenario B of the specification: source 10, matches to 20 on
chr 5 [0,1000] and to 21 on [500,1500], a triangulation (10,20,21) on
[600,700]; all six triangle permutations are stored, matches in both
orders. -/

def scenB : Store :=
  { kits := [⟨10, "S10", none, none, none⟩, ⟨20, "T20", none, none, none⟩,
      ⟨21, "T21", none, none, none⟩]
    sources := [⟨10, some 1, some 1, none⟩]
    segments := [⟨1, "5", 0, 1000, none⟩, ⟨2, "5", 500, 1500, none⟩, ⟨3, "5", 600, 700, none⟩]
    match_rows := [⟨1, 10, 20, 1⟩, ⟨1, 20, 10, 1⟩, ⟨2, 10, 21, 1⟩, ⟨2, 21, 10, 1⟩]
    triangles := [⟨3, 10, 20, 21, 1⟩, ⟨3, 20, 10, 21, 1⟩, ⟨3, 21, 20, 10, 1⟩,
      ⟨3, 10, 21, 20, 1⟩, ⟨3, 21, 10, 20, 1⟩, ⟨3, 20, 21, 10, 1⟩]
    overlaps := []
    negatives := []
    genetmap := []
    batch := 1 }

/-- A store where the source's matches to targets 2 and 3 overlap on
chromosome "1", while the only (1,2,3) triangulations lie on chromosome "2":
triangle rows for the kit triple exist, but none intersects the overlap. -/
def cex2store : Store :=
  { kits := [⟨1, "S1", none, none, none⟩, ⟨2, "T2", none, none, none⟩,
      ⟨3, "T3", none, none, none⟩]
    sources := [⟨1, some 1, some 1, none⟩]
    segments := [⟨1, "1", 0, 1000, none⟩, ⟨2, "1", 500, 1500, none⟩, ⟨3, "2", 0, 10, none⟩]
    match_rows := [⟨1, 1, 2, 1⟩, ⟨1, 2, 1, 1⟩, ⟨2, 1, 3, 1⟩, ⟨2, 3, 1, 1⟩]
    triangles := [⟨3, 1, 2, 3, 1⟩, ⟨3, 2, 1, 3, 1⟩, ⟨3, 3, 2, 1, 1⟩,
      ⟨3, 1, 3, 2, 1⟩, ⟨3, 3, 1, 2, 1⟩, ⟨3, 2, 3, 1, 1⟩]
    overlaps := []
    negatives := []
    genetmap := []
    batch := 1 }

/-- Scenario B extended with a stale pre-existing overlap row (id 99, over
segment 1) and its cached negative row, as a previous rebuild would have left
them. -/
def cex3store : Store :=
  { scenB with
    overlaps := [⟨99, 10, 20, 21, 1⟩]
    negatives := [⟨99, 3⟩] }

/-- A source with both watermarks set whose matches reach only a single valid
target, so that no overlapping pair of match segments exists. -/
def cex4store : Store :=
  { kits := [⟨1, "S1", none, none, none⟩, ⟨2, "T2", none, none, none⟩,
      ⟨3, "T3", none, none, none⟩]
    sources := [⟨1, some 1, some 1, none⟩]
    segments := [⟨1, "1", 0, 100, none⟩, ⟨2, "1", 200, 300, none⟩]
    match_rows := [⟨1, 1, 2, 1⟩, ⟨1, 2, 1, 1⟩]
    triangles := [⟨2, 1, 2, 3, 1⟩, ⟨2, 2, 1, 3, 1⟩, ⟨2, 3, 2, 1, 1⟩,
      ⟨2, 1, 3, 2, 1⟩, ⟨2, 3, 1, 2, 1⟩, ⟨2, 2, 3, 1, 1⟩]
    overlaps := []
    negatives := []
    genetmap := []
    batch := 1 }

def emptyStore : Store :=
  { kits := [], sources := [], segments := [], match_rows := [], triangles := []
    overlaps := [], negatives := [], genetmap := [], batch := 0 }

def cex5rows : List MatchInput :=
  [⟨"A", "B", "1", 0, 100, some 10, none, none, none⟩]

/-- A store that already holds both orientations of the (segment, A, B) match
from batch 1, with the source watermark at 1. -/
def cex9store : Store :=
  { kits := [⟨1, "A", none, none, none⟩, ⟨2, "B", none, none, none⟩]
    sources := [⟨1, some 1, none, none⟩]
    segments := [⟨1, "1", 0, 100, none⟩]
    match_rows := [⟨1, 1, 2, 1⟩, ⟨1, 2, 1, 1⟩]
    triangles := []
    overlaps := []
    negatives := []
    genetmap := []
    batch := 1 }

/-- A store whose kit "E1" (internal id 3) appears as kit3 of a stored
triangle over a 10 cM segment; there are no pairwise matches. -/
def cex1store : Store :=
  { kits := [⟨1, "A", none, none, none⟩, ⟨2, "B", none, none, none⟩,
      ⟨3, "E1", none, none, none⟩]
    sources := []
    segments := [⟨1, "1", 0, 100, some 10⟩]
    match_rows := []
    triangles := [⟨1, 1, 2, 3, 1⟩, ⟨1, 2, 1, 3, 1⟩, ⟨1, 3, 2, 1, 1⟩,
      ⟨1, 1, 3, 2, 1⟩, ⟨1, 3, 1, 2, 1⟩, ⟨1, 2, 3, 1, 1⟩]
    overlaps := []
    negatives := []
    genetmap := []
    batch := 1 }

/-- Kits A, B, C with a single 8 cM match between A and B; A is a paternal
seed, B a maternal seed, C has no edges at all. -/
def cex7store : Store :=
  { kits := [⟨1, "A", none, none, none⟩, ⟨2, "B", none, none, none⟩,
      ⟨3, "C", none, none, none⟩]
    sources := []
    segments := [⟨1, "1", 0, 100, some 8⟩]
    match_rows := [⟨1, 1, 2, 1⟩, ⟨1, 2, 1, 1⟩]
    triangles := []
    overlaps := []
    negatives := []
    genetmap := []
    batch := 1 }

def cex7config : ClusterConfig :=
  { include_ := []
    exclude := []
    min_length := 7
    tree := RawTree.nMP []
      (RawTree.n0 [⟨"B", false, none, false⟩])
      (RawTree.n0 [⟨"A", false, none, false⟩])
    seeds := ["B", "A"] }

/-- Kits A and B matching on a segment of length exactly 7 cM. -/
def cex8store : Store :=
  { kits := [⟨1, "A", none, none, none⟩, ⟨2, "B", none, none, none⟩]
    sources := []
    segments := [⟨1, "1", 0, 100, some 7⟩]
    match_rows := [⟨1, 1, 2, 1⟩, ⟨1, 2, 1, 1⟩]
    triangles := []
    overlaps := []
    negatives := []
    genetmap := []
    batch := 1 }

/-- A null-length segment on chromosome "2" while the genetic map only has
anchors on chromosome "1". -/
def cex6store : Store :=
  { kits := []
    sources := []
    segments := [⟨1, "2", 0, 100, none⟩]
    match_rows := []
    triangles := []
    overlaps := []
    negatives := []
    genetmap := [⟨"1", 0, 0⟩, ⟨"1", 100, 10⟩]
    batch := 0 }

/-! ### Genetic-map anchors, declaratively (for C6)

The next two predicates state, in the words of the specification, which
anchor the interpolation uses on each side of a position: the two map anchors
on the segment's chromosome that bracket the position, and the single nearest
anchor on both sides when the position lies outside the map. -/

def lower_anchor_spec (st : Store) (c : String) (p : Int) (a : GenetmapRow) : Prop :=
  a ∈ st.genetmap ∧ a.chromosome = c ∧
    ((a.position ≤ p ∧
        ∀ g ∈ st.genetmap, g.chromosome = c → g.position ≤ p → g.position ≤ a.position) ∨
     ((∀ g ∈ st.genetmap, g.chromosome = c → p < g.position) ∧
        p ≤ a.position ∧
        ∀ g ∈ st.genetmap, g.chromosome = c → a.position ≤ g.position))

def upper_anchor_spec (st : Store) (c : String) (p : Int) (a : GenetmapRow) : Prop :=
  a ∈ st.genetmap ∧ a.chromosome = c ∧
    ((p ≤ a.position ∧
        ∀ g ∈ st.genetmap, g.chromosome = c → p ≤ g.position → a.position ≤ g.position) ∨
     ((∀ g ∈ st.genetmap, g.chromosome = c → g.position < p) ∧
        a.position ≤ p ∧
        ∀ g ∈ st.genetmap, g.chromosome = c → g.position ≤ a.position))

/-- Anchor positions are unique within a chromosome (the unique constraint of
the `genetmap` table). -/
def genetmap_uniq (st : Store) : Prop :=
  ∀ g1 ∈ st.genetmap, ∀ g2 ∈ st.genetmap,
    g1.chromosome = g2.chromosome → g1.position = g2.position → g1 = g2

/-- A charted variant of the C6 store: the same null-length segment, now on
the chromosome the genetic map covers. -/
def c6wstore : Store :=
  { cex6store with segments := [⟨1, "1", 25, 75, none⟩] }

/-- A store exercising the C2 invariant: one overlap (id 7) of source 1 on
segment `[0, 100]` of chromosome 1, with one triangle of the triple on
segment `[30, 60]` of the same chromosome. -/
def c2wstore : Store where
  kits := []
  sources := []
  segments := [⟨1, "1", 0, 100, none⟩, ⟨2, "1", 30, 60, none⟩]
  match_rows := []
  triangles := [⟨2, 1, 2, 3, 0⟩]
  overlaps := [⟨7, 1, 2, 3, 1⟩]
  negatives := []
  genetmap := []
  batch := 0

/-- Sanity check of the embedding against Scenario B of the specification:
the rebuild materializes the overlap [500,1000] for both target orders and
persists exactly the negative intervals [500,600] and [700,1000]. -/
theorem build_negative_scenarioB :
    (build_negative scenB 10).1 = true ∧
    (build_negative scenB 10).2.overlaps =
      [⟨1, 10, 20, 21, 4⟩, ⟨2, 10, 21, 20, 4⟩] ∧
    find_segment (build_negative scenB 10).2 4 = some ⟨4, "5", 500, 1000, none⟩ ∧
    (build_negative scenB 10).2.negatives = [⟨1, 5⟩, ⟨1, 6⟩, ⟨2, 5⟩, ⟨2, 6⟩] ∧
    find_segment (build_negative scenB 10).2 5 = some ⟨5, "5", 500, 600, none⟩ ∧
    find_segment (build_negative scenB 10).2 6 = some ⟨6, "5", 700, 1000, none⟩ ∧
    (build_negative scenB 10).2.sources = [⟨10, some 1, some 1, some 1⟩] := by decide

/-- C2, counterexample: on `cex2store` the rebuild runs (it returns true and
creates the two overlap rows for source 1 over chromosome "1" [500,1000]);
no positive triangle interval intersects either overlap, because the only
(1,2,3) triangle segments lie on chromosome "2"; and yet no negative interval
at all is persisted — the left join produces no row for these overlaps, so
the entire interval [500,1000] is not emitted, and the union of positive and
negative intervals inside the overlap is empty rather than the overlap
interval. -/
theorem C2_counterexample :
    (build_negative cex2store 1).1 = true ∧
    (build_negative cex2store 1).2.overlaps = [⟨1, 1, 2, 3, 4⟩, ⟨2, 1, 3, 2, 4⟩] ∧
    find_segment (build_negative cex2store 1).2 4 = some ⟨4, "1", 500, 1000, none⟩ ∧
    select_neg_overlap (build_negative cex2store 1).2 1 = [] ∧
    (build_negative cex2store 1).2.negatives = [] := by decide

/-- C3: `build_negative` issues its DELETE of pre-existing overlap rows on a
connection that is closed without commit, so the delete is rolled back: the
stale overlap row 99 (and its cached negative row) survive the rebuild.  The
rebuild also commits in several separate transactions: the third committed
state already contains the freshly inserted overlap rows 100 and 101, while
the negative table still holds only the stale row and `source.negative` is
still null — observable partial progress. -/
theorem C3_failing_input_eval :
    (build_negative_states cex3store 10).1 = true ∧
    (build_negative_states cex3store 10).2.length = 6 ∧
    OverlapRow.mk 99 10 20 21 1 ∈ (build_negative cex3store 10).2.overlaps ∧
    NegativeRow.mk 99 3 ∈ (build_negative cex3store 10).2.negatives ∧
    ((build_negative_states cex3store 10).2.getD 2 cex3store).overlaps =
      [⟨99, 10, 20, 21, 1⟩, ⟨100, 10, 20, 21, 4⟩, ⟨101, 10, 21, 20, 4⟩] ∧
    ((build_negative_states cex3store 10).2.getD 2 cex3store).negatives = [⟨99, 3⟩] ∧
    ((build_negative_states cex3store 10).2.getD 2 cex3store).sources =
      [⟨10, some 1, some 1, none⟩] := by decide

/-- C4, counterexample: on `cex4store` the first call does not report
insufficient data (it returns true), yet it commits nothing and leaves
`source.negative` null instead of `max(source.match, source.triangle) = 1`,
because the early return on an empty overlap set skips the watermark update;
the second call therefore repeats the stale-branch work instead of taking the
up-to-date branch. -/
theorem C4_counterexample :
    build_negative_states cex4store 1 = (true, []) ∧
    (build_negative cex4store 1).2.sources = [⟨1, some 1, some 1, none⟩] ∧
    ¬ (build_negative cex4store 1).2.sources = [⟨1, some 1, some 1, some 1⟩] := by decide

/-- C5, counterexample: `import_matches` commits seven separate transactions;
after the sixth (the batch increment) the store differs from the initial one
— kits, the source row and the segment are inserted and the batch counter is
advanced — while no match row exists yet.  A failure at that point leaves all
of this visible, so the call is not all-or-nothing, and the batch counter is
advanced before the transaction that inserts the match rows commits. -/
theorem C5_counterexample :
    (import_matches_states emptyStore cex5rows).length = 7 ∧
    ((import_matches_states emptyStore cex5rows).getD 5 emptyStore).batch =
      emptyStore.batch + 1 ∧
    ((import_matches_states emptyStore cex5rows).getD 5 emptyStore).match_rows = [] ∧
    ((import_matches_states emptyStore cex5rows).getD 5 emptyStore).kits ≠ [] ∧
    ((import_matches_states emptyStore cex5rows).getD 5 emptyStore) ≠ emptyStore ∧
    (import_matches emptyStore cex5rows).match_rows = [⟨1, 1, 2, 1⟩, ⟨1, 2, 1, 1⟩] := by decide

/-- C9, counterexample: re-importing a row whose both orientations already
exist allocates batch 2, but the ON CONFLICT IGNORE drops both inserts, so no
batch-2 match row exists and the watermark update matches no kit: kit 1 is in
the source table and appears as kit1 of the imported row, yet `source.match`
stays 1 instead of being set to the allocated batch 2. -/
theorem C9_counterexample :
    import_matches cex9store cex5rows = { cex9store with batch := 2 } ∧
    (import_matches cex9store cex5rows).sources = [⟨1, some 1, none, none⟩] ∧
    (import_matches cex9store cex5rows).batch = 2 := by decide

/-- C1: with `exclude = ["E1"]` (the external id of internal kit 3), the
directed triangle row (1, 2, 3) with a 10 cM segment still contributes its
full length to edge (1,2) of the base graph — the query compares the integer
kit3 column against the external kitid strings, which never match — and the
triangle query output is identical to the one with an empty exclude list. -/
theorem C1_failing_input_eval :
    lookup_kitid cex1store "E1" = some 3 ∧
    TriangleRow.mk 1 1 2 3 1 ∈ cex1store.triangles ∧
    find_segment cex1store 1 = some ⟨1, "1", 0, 100, some 10⟩ ∧
    graph_weight (base_graph cex1store 7 ["E1"]) 1 2 = some 10 ∧
    (10 : Rat) ≠ 0 ∧
    triangle_query cex1store 7 ["E1"] = triangle_query cex1store 7 [] := by
  with_unfolding_all decide

theorem cex7_eval :
    cluster_data cex7store cex7config =
      some ([⟨some "C", 1, none, [(0, "", none)]⟩,
             ⟨some "B", 3, some 3, [(0, "M", some 1)]⟩,
             ⟨some "A", 2, some 2, [(0, "P", some 1)]⟩], cex7store) := by
  with_unfolding_all decide

/-- C7, counterexample: in the table returned by `cluster_data` on
`cex7store`/`cex7config`, the row of kit C — which has no edges and is
assigned no cluster — carries a null depth-0 confidence, not a number in
[0,1]. -/
theorem C7_counterexample :
    ¬ (∀ res, cluster_data cex7store cex7config = some res →
        ∀ r ∈ res.1, ∀ c ∈ r.cols, ∃ q, c.2.2 = some q ∧ 0 ≤ q ∧ q ≤ 1) := by
  intro h
  have h2 := h _ cex7_eval (OutRow.mk (some "C") 1 none [(0, "", none)])
    (List.mem_cons_self _ _) (0, "", none) (List.mem_cons_self _ _)
  rcases h2 with ⟨q, hq, _⟩
  exact Option.noConfusion hq

/-- C8, counterexample: a segment of length exactly 7 contributes to the base
graph under `min_length = 7` (the weight filter is `≥`), but the include
expansion with bound `matches = 7` adds nobody, because its query uses a
strict `>`: kit 2, which matches included kit 1 on a segment of length
exactly 7, is not added. -/
theorem C8_counterexample :
    find_segment cex8store 1 = some ⟨1, "1", 0, 100, some 7⟩ ∧
    MatchRow.mk 1 1 2 1 ∈ cex8store.match_rows ∧
    graph_weight (base_graph cex8store 7 []) 1 2 = some (7/4) ∧
    match_include_query cex8store 1 7 = [] ∧
    tri_include_query cex8store 1 7 = [] := by with_unfolding_all decide

/-- C6, counterexample: after `set_segment_lengths` the null-length segment
on the uncharted chromosome "2" still has a null length — the join to the
genetic map produces no row for it, so it acquires no finite length. -/
theorem C6_counterexample :
    SegmentRow.mk 1 "2" 0 100 none ∈ cex6store.segments ∧
    (set_segment_lengths cex6store).segments = [⟨1, "2", 0, 100, none⟩] := by
  with_unfolding_all decide

/-- C8 (amended): the length threshold is inclusive for the edge-weight
queries — a match or triangle row over a segment of length exactly
`min_length` enters the rows summed into the graph weights — while the
include-list expansion is strict: a kit is added as a match (triangle)
neighbor of an included kit if and only if some shared segment has length
**strictly greater** than the configured bound, so a segment of length
exactly `L` does not add its kit. -/
theorem C8_amended :
    (∀ (st : Store) (min_length : Rat) (m : MatchRow) (g : SegmentRow),
      m ∈ st.match_rows → find_segment st m.segment = some g →
      g.length = some min_length → m.kit1 ≠ m.kit2 →
      (m.kit1, m.kit2, min_length) ∈ graph_rows st min_length) ∧
    (∀ (st : Store) (min_length : Rat) (t : TriangleRow) (g : SegmentRow) (exclude : List String),
      t ∈ st.triangles → find_segment st t.segment = some g →
      g.length = some min_length → t.kit1 ≠ t.kit2 →
      sqliteIntNotInTexts t.kit3 exclude = true →
      (t.kit1, t.kit2, min_length) ∈ triangle_rows st min_length exclude) ∧
    (∀ (st : Store) (k : Int) (L : Rat) (b : Int),
      b ∈ match_include_query st k L ↔
        ∃ m ∈ st.match_rows, m.kit1 = k ∧ m.kit2 = b ∧
          ∃ g, find_segment st m.segment = some g ∧ ∃ l, g.length = some l ∧ L < l) ∧
    (∀ (st : Store) (k : Int) (L : Rat) (b : Int),
      b ∈ tri_include_query st k L ↔
        ∃ t ∈ st.triangles, t.kit1 = k ∧ t.kit2 = b ∧
          ∃ g, find_segment st t.segment = some g ∧ ∃ l, g.length = some l ∧ L < l) := by
  refine ⟨?_, ?_, ?_, ?_⟩
  · intro st min_length m g hm hfs hl hne
    refine List.mem_filterMap.mpr ⟨m, hm, ?_⟩
    simp only [hfs, hl]
    rw [if_pos ⟨le_refl min_length, hne⟩]
  · intro st min_length t g exclude ht hfs hl hne hni
    refine List.mem_filterMap.mpr ⟨t, ht, ?_⟩
    simp only [hfs, hl]
    rw [if_pos ⟨le_refl min_length, hne, hni⟩]
  · intro st k L b
    rw [match_include_query, mem_dedupF, List.mem_filterMap]
    constructor
    · rintro ⟨m, hm, hfm⟩
      by_cases hk : m.kit1 == k
      · rw [if_pos hk] at hfm
        cases hfs : find_segment st m.segment with
        | none => simp only [hfs] at hfm; exact Option.noConfusion hfm
        | some g =>
          simp only [hfs] at hfm
          cases hl : g.length with
          | none => simp only [hl] at hfm; exact Option.noConfusion hfm
          | some l =>
            simp only [hl] at hfm
            by_cases hL : L < l
            · rw [if_pos hL] at hfm
              cases hfm
              exact ⟨m, hm, by simpa using hk, rfl, g, hfs, l, hl, hL⟩
            · rw [if_neg hL] at hfm
              exact absurd hfm (by simp)
      · rw [if_neg hk] at hfm
        exact absurd hfm (by simp)
    · rintro ⟨m, hm, hk1, hk2, g, hfs, l, hl, hL⟩
      refine ⟨m, hm, ?_⟩
      rw [if_pos (show (m.kit1 == k) = true by simpa using hk1)]
      simp only [hfs, hl]
      rw [if_pos hL, hk2]
  · intro st k L b
    rw [tri_include_query, mem_dedupF, List.mem_filterMap]
    constructor
    · rintro ⟨t, ht, hft⟩
      by_cases hk : t.kit1 == k
      · rw [if_pos hk] at hft
        cases hfs : find_segment st t.segment with
        | none => simp only [hfs] at hft; exact Option.noConfusion hft
        | some g =>
          simp only [hfs] at hft
          cases hl : g.length with
          | none => simp only [hl] at hft; exact Option.noConfusion hft
          | some l =>
            simp only [hl] at hft
            by_cases hL : L < l
            · rw [if_pos hL] at hft
              cases hft
              exact ⟨t, ht, by simpa using hk, rfl, g, hfs, l, hl, hL⟩
            · rw [if_neg hL] at hft
              exact absurd hft (by simp)
      · rw [if_neg hk] at hft
        exact absurd hft (by simp)
    · rintro ⟨t, ht, hk1, hk2, g, hfs, l, hl, hL⟩
      refine ⟨t, ht, ?_⟩
      rw [if_pos (show (t.kit1 == k) = true by simpa using hk1)]
      simp only [hfs, hl]
      rw [if_pos hL, hk2]

/-- Witness for `C8_amended` at concrete inputs: the exactly-7 segment of
`cex8store` enters the pairwise rows, and the exactly-10 triangle segment of
`cex1store` enters the triangle rows despite the exclude list. -/
theorem C8_amended_witness :
    (1, 2, (7 : Rat)) ∈ graph_rows cex8store 7 ∧
    (1, 2, (10 : Rat)) ∈ triangle_rows cex1store 10 ["E1"] :=
  ⟨C8_amended.1 cex8store 7 ⟨1, 1, 2, 1⟩ ⟨1, "1", 0, 100, some 7⟩
      (by decide) (by decide) (by decide) (by decide),
    C8_amended.2.1 cex1store 10 ⟨1, 1, 2, 3, 1⟩ ⟨1, "1", 0, 100, some 10⟩ ["E1"]
      (by decide) (by decide) (by decide) (by decide) (by decide)⟩

theorem find?_of_unique {α : Type} (l : List α) (p : α → Bool) (a : α)
    (ha : a ∈ l) (hpa : p a = true) (huniq : ∀ b ∈ l, p b = true → b = a) :
    l.find? p = some a := by
  induction l with
  | nil => exact absurd ha (List.not_mem_nil a)
  | cons h t ih =>
    by_cases hp : p h
    · rw [List.find?_cons_of_pos _ hp]
      rw [huniq h (List.mem_cons_self h t) hp]
    · rw [List.find?_cons_of_neg _ hp]
      rcases List.mem_cons.mp ha with rfl | ha'
      · exact absurd hpa hp
      · exact ih ha' (fun b hb hpb => huniq b (List.mem_cons_of_mem h hb) hpb)

theorem mem_anchors_iff (st : Store) (c : String) (g : GenetmapRow) :
    g ∈ map_anchors st c ↔ g ∈ st.genetmap ∧ g.chromosome = c := by
  rw [map_anchors, List.mem_filter]
  simp [beq_iff_eq]

theorem mem_anchor_positions_iff (st : Store) (c : String) (q : Int) (p : Int) :
    q ∈ ((map_anchors st c).map (·.position)).filter (fun x => decide (x ≤ p)) ↔
      (∃ g ∈ st.genetmap, g.chromosome = c ∧ g.position = q) ∧ q ≤ p := by
  rw [List.mem_filter, List.mem_map]
  constructor
  · rintro ⟨⟨g, hg, rfl⟩, hle⟩
    rcases (mem_anchors_iff st c g).mp hg with ⟨h1, h2⟩
    exact ⟨⟨g, h1, h2, rfl⟩, by simpa using hle⟩
  · rintro ⟨⟨g, hg, hc, rfl⟩, hle⟩
    exact ⟨⟨g, (mem_anchors_iff st c g).mpr ⟨hg, hc⟩, rfl⟩, by simpa using hle⟩

theorem mem_anchor_positions_ge_iff (st : Store) (c : String) (q : Int) (p : Int) :
    q ∈ ((map_anchors st c).map (·.position)).filter (fun x => decide (x ≥ p)) ↔
      (∃ g ∈ st.genetmap, g.chromosome = c ∧ g.position = q) ∧ p ≤ q := by
  rw [List.mem_filter, List.mem_map]
  constructor
  · rintro ⟨⟨g, hg, rfl⟩, hle⟩
    rcases (mem_anchors_iff st c g).mp hg with ⟨h1, h2⟩
    exact ⟨⟨g, h1, h2, rfl⟩, by simpa using hle⟩
  · rintro ⟨⟨g, hg, hc, rfl⟩, hle⟩
    exact ⟨⟨g, (mem_anchors_iff st c g).mpr ⟨hg, hc⟩, rfl⟩, by simpa using hle⟩

/-- The coalesce-of-aggregates computation of `set_segment_lengths` selects
exactly the declaratively specified anchors, and the cm lookup returns their
cm values. -/
theorem anchor_selection (st : Store) (c : String) (p : Int) (a1 a2 : GenetmapRow)
    (huniq : genetmap_uniq st)
    (h1 : lower_anchor_spec st c p a1) (h2 : upper_anchor_spec st c p a2) :
    (pos1 st c p = a1.position ∧ pos2 st c p = a2.position) ∧
    (cm_at st c a1.position = a1.cm ∧ cm_at st c a2.position = a2.cm) := by
  rcases h1 with ⟨ha1m, ha1c, hcase1⟩
  rcases h2 with ⟨ha2m, ha2c, hcase2⟩
  have hcm : ∀ (a : GenetmapRow), a ∈ st.genetmap → a.chromosome = c →
      cm_at st c a.position = a.cm := by
    intro a ham hac
    have hmem : a ∈ map_anchors st c := (mem_anchors_iff st c a).mpr ⟨ham, hac⟩
    have hfind := find?_of_unique (map_anchors st c) (fun g => g.position == a.position) a hmem
      (by simp) (fun b hb hpb => by
        rcases (mem_anchors_iff st c b).mp hb with ⟨hbm, hbc⟩
        exact huniq b hbm a ham (hbc.trans hac.symm) (by simpa using hpb))
    rw [cm_at, hfind]
    rfl
  have hlo_some : (∃ g ∈ st.genetmap, g.chromosome = c ∧ g.position ≤ p) →
      pos_before st c p = some a1.position := by
    intro hex
    rcases hcase1 with ⟨hle, hgr⟩ | ⟨hnone, _, _⟩
    · exact (aggMax_spec _ a1.position).mpr
        ⟨(mem_anchor_positions_iff st c a1.position p).mpr ⟨⟨a1, ha1m, ha1c, rfl⟩, hle⟩,
          fun x hx => by
            rcases (mem_anchor_positions_iff st c x p).mp hx with ⟨⟨g, hgm, hgc, rfl⟩, hxle⟩
            exact hgr g hgm hgc hxle⟩
    · rcases hex with ⟨g, hgm, hgc, hgle⟩
      exact absurd (hnone g hgm hgc) (not_lt.mpr hgle)
  have hlo_none : (∀ g ∈ st.genetmap, g.chromosome = c → p < g.position) →
      pos_before st c p = none := by
    intro hno
    rw [pos_before, aggMax_eq_none]
    rw [List.eq_nil_iff_forall_not_mem]
    intro q hq
    rcases (mem_anchor_positions_iff st c q p).mp hq with ⟨⟨g, hgm, hgc, rfl⟩, hle⟩
    exact absurd (hno g hgm hgc) (not_lt.mpr hle)
  have hhi_some : (∃ g ∈ st.genetmap, g.chromosome = c ∧ p ≤ g.position) →
      pos_after st c p = some a2.position := by
    intro hex
    rcases hcase2 with ⟨hle, hgr⟩ | ⟨hnone, _, _⟩
    · exact (aggMin_spec _ a2.position).mpr
        ⟨(mem_anchor_positions_ge_iff st c a2.position p).mpr ⟨⟨a2, ha2m, ha2c, rfl⟩, hle⟩,
          fun x hx => by
            rcases (mem_anchor_positions_ge_iff st c x p).mp hx with ⟨⟨g, hgm, hgc, rfl⟩, hxle⟩
            exact hgr g hgm hgc hxle⟩
    · rcases hex with ⟨g, hgm, hgc, hgle⟩
      exact absurd (hnone g hgm hgc) (not_lt.mpr hgle)
  have hhi_none : (∀ g ∈ st.genetmap, g.chromosome = c → g.position < p) →
      pos_after st c p = none := by
    intro hno
    rw [pos_after, aggMin_eq_none]
    rw [List.eq_nil_iff_forall_not_mem]
    intro q hq
    rcases (mem_anchor_positions_ge_iff st c q p).mp hq with ⟨⟨g, hgm, hgc, rfl⟩, hle⟩
    exact absurd (hno g hgm hgc) (not_lt.mpr hle)
  refine ⟨⟨?_, ?_⟩, hcm a1 ha1m ha1c, hcm a2 ha2m ha2c⟩
  · rcases hcase1 with ⟨hle, hgr⟩ | ⟨hnone, hge, hleast⟩
    · rw [pos1, hlo_some ⟨a1, ha1m, ha1c, hle⟩]
      rfl
    · rw [pos1, hlo_none hnone]
      have h2h : pos_after st c p = some a1.position := by
        rcases hcase2 with ⟨hle2, hgr2⟩ | ⟨hnone2, _, _⟩
        · exact (aggMin_spec _ a1.position).mpr
            ⟨(mem_anchor_positions_ge_iff st c a1.position p).mpr ⟨⟨a1, ha1m, ha1c, rfl⟩, hge⟩,
              fun x hx => by
                rcases (mem_anchor_positions_ge_iff st c x p).mp hx with ⟨⟨g, hgm, hgc, rfl⟩, hxle⟩
                exact hleast g hgm hgc⟩
        · exact absurd (hnone2 a1 ha1m ha1c) (not_lt.mpr hge)
      rw [h2h]
      rfl
  · rcases hcase2 with ⟨hle, hgr⟩ | ⟨hnone, hge, hgreatest⟩
    · rw [pos2, hhi_some ⟨a2, ha2m, ha2c, hle⟩]
      rfl
    · rw [pos2, hhi_none hnone]
      have h1h : pos_before st c p = some a2.position := by
        rcases hcase1 with ⟨hle1, hgr1⟩ | ⟨hnone1, _, _⟩
        · exact (aggMax_spec _ a2.position).mpr
            ⟨(mem_anchor_positions_iff st c a2.position p).mpr ⟨⟨a2, ha2m, ha2c, rfl⟩, hge⟩,
              fun x hx => by
                rcases (mem_anchor_positions_iff st c x p).mp hx with ⟨⟨g, hgm, hgc, rfl⟩, hxle⟩
                exact hgreatest g hgm hgc⟩
        · exact absurd (hnone1 a2 ha2m ha2c) (not_lt.mpr hge)
      rw [h1h]
      rfl

/-- With declaratively specified anchors on both sides, the cm value the
query computes at an endpoint is exactly the interpolation formula of the
specification. -/
theorem seg_cm_eq (st : Store) (c : String) (p : Int) (a1 a2 : GenetmapRow)
    (huniq : genetmap_uniq st)
    (h1 : lower_anchor_spec st c p a1) (h2 : upper_anchor_spec st c p a2) :
    seg_cm st c p = interp_cm p a1.position a2.position a1.cm a2.cm := by
  rcases anchor_selection st c p a1 a2 huniq h1 h2 with ⟨⟨hp1, hp2⟩, hc1, hc2⟩
  rw [seg_cm, hp1, hp2, hc1, hc2]

/-- C6 (amended): after `set_segment_lengths`, (a) every segment with a
non-null length is untouched; (b) a null-length segment whose chromosome has
no genetic-map anchor stays null (untouched); (c) a null-length segment whose
chromosome is charted acquires the length
`cm_at(end_bp) - cm_at(start_bp)`, where the cm at each endpoint is the
linear interpolation `cm(P1) + (p - pos(P1)) / (pos(P2) - pos(P1)) *
(cm(P2) - cm(P1))` (0 when the denominator is 0) between the two anchors that
bracket the endpoint — the single nearest anchor standing in on both sides
when the endpoint lies outside the map. -/
theorem C6_amended (st : Store) :
    (∀ seg ∈ st.segments, (∃ x, seg.length = some x) →
      seg ∈ (set_segment_lengths st).segments) ∧
    (∀ seg ∈ st.segments, seg.length = none →
      map_anchors st seg.chromosome = [] →
      seg ∈ (set_segment_lengths st).segments) ∧
    (genetmap_uniq st →
      ∀ seg ∈ st.segments, seg.length = none →
      ∀ s1 s2 e1 e2 : GenetmapRow,
        lower_anchor_spec st seg.chromosome seg.start s1 →
        upper_anchor_spec st seg.chromosome seg.start s2 →
        lower_anchor_spec st seg.chromosome seg.end_ e1 →
        upper_anchor_spec st seg.chromosome seg.end_ e2 →
        { seg with length := some (interp_cm seg.end_ e1.position e2.position e1.cm e2.cm
            - interp_cm seg.start s1.position s2.position s1.cm s2.cm) }
          ∈ (set_segment_lengths st).segments) := by
  refine ⟨?_, ?_, ?_⟩
  · intro seg hseg hx
    rcases hx with ⟨x, hx⟩
    simp only [set_segment_lengths]
    refine List.mem_map.mpr ⟨seg, hseg, ?_⟩
    simp only [hx]
  · intro seg hseg hnull hfil
    simp only [set_segment_lengths]
    refine List.mem_map.mpr ⟨seg, hseg, ?_⟩
    simp only [hnull, hfil]
    rfl
  · intro huniq seg hseg hnull s1 s2 e1 e2 hs1 hs2 he1 he2
    simp only [set_segment_lengths]
    refine List.mem_map.mpr ⟨seg, hseg, ?_⟩
    simp only [hnull]
    have hne : (map_anchors st seg.chromosome).isEmpty = false := by
      have hm : s1 ∈ map_anchors st seg.chromosome :=
        (mem_anchors_iff _ _ _).mpr ⟨hs1.1, hs1.2.1⟩
      cases hmap : map_anchors st seg.chromosome with
      | nil => rw [hmap] at hm; exact absurd hm (List.not_mem_nil s1)
      | cons a t => rfl
    rw [if_neg (by rw [hne]; simp)]
    rw [seg_cm_eq st seg.chromosome seg.end_ e1 e2 huniq he1 he2,
      seg_cm_eq st seg.chromosome seg.start s1 s2 huniq hs1 hs2]

/-! ### List lemmas for the negative-interval development (C2) -/

theorem dedupFAux_sublist [DecidableEq α] (l : List α) :
    ∀ (seen : List α), List.Sublist (dedupFAux seen l) l := by
  induction l with
  | nil => intro seen; exact List.Sublist.refl []
  | cons a t ih =>
    intro seen
    by_cases h : a ∈ seen
    · rw [dedupFAux, if_pos h]
      exact (ih seen).cons a
    · rw [dedupFAux, if_neg h]
      exact (ih (a :: seen)).cons₂ a

theorem dedupF_sublist [DecidableEq α] (l : List α) : List.Sublist (dedupF l) l :=
  dedupFAux_sublist l []

theorem dedupFAux_nodup [DecidableEq α] (l : List α) :
    ∀ (seen : List α), (dedupFAux seen l).Nodup := by
  induction l with
  | nil => intro seen; exact List.nodup_nil
  | cons a t ih =>
    intro seen
    by_cases h : a ∈ seen
    · rw [dedupFAux, if_pos h]; exact ih seen
    · rw [dedupFAux, if_neg h]
      refine List.nodup_cons.mpr ⟨?_, ih (a :: seen)⟩
      intro hmem
      exact ((mem_dedupFAux t (a :: seen) a).mp hmem).2 (List.mem_cons_self a seen)

theorem dedupF_nodup [DecidableEq α] (l : List α) : (dedupF l).Nodup :=
  dedupFAux_nodup l []

theorem insOne_perm (le : α → α → Bool) (a : α) (l : List α) :
    (insOne le a l).Perm (a :: l) := by
  induction l with
  | nil => exact List.Perm.refl _
  | cons b t ih =>
    by_cases h : le a b = true
    · rw [insOne, if_pos h]
    · rw [insOne, if_neg h]
      exact (ih.cons b).trans (List.Perm.swap a b t)

theorem insSort_perm (le : α → α → Bool) (l : List α) : (insSort le l).Perm l := by
  induction l with
  | nil => exact List.Perm.refl _
  | cons a t ih => exact (insOne_perm le a (insSort le t)).trans (ih.cons a)

theorem filter_flatMap (l : List α) (f : α → List β) (p : β → Bool) :
    (l.flatMap f).filter p = l.flatMap (fun a => (f a).filter p) := by
  induction l with
  | nil => rfl
  | cons a t ih => simp [List.flatMap_cons, List.filter_append, ih]

theorem flatMap_eq_nil_of_forall (keys : List κ) (g : κ → List β)
    (hz : ∀ k ∈ keys, g k = []) : keys.flatMap g = [] := by
  rw [List.flatMap_eq_nil_iff]
  exact hz

theorem flatMap_eq_single_of_not_mem (keys : List κ) (g : κ → List β) (key0 : κ)
    (hm : key0 ∉ keys) (hz : ∀ k ∈ keys, k ≠ key0 → g k = []) :
    keys.flatMap g = [] :=
  flatMap_eq_nil_of_forall keys g (fun k hk => hz k hk (fun hc => hm (hc ▸ hk)))

theorem flatMap_eq_single_of_mem (keys : List κ) (g : κ → List β) (key0 : κ)
    (hn : keys.Nodup) (hm : key0 ∈ keys) (hz : ∀ k ∈ keys, k ≠ key0 → g k = []) :
    keys.flatMap g = g key0 := by
  induction keys with
  | nil => exact absurd hm (List.not_mem_nil key0)
  | cons k ks ih =>
    rcases List.nodup_cons.mp hn with ⟨hk, hks⟩
    by_cases he : k = key0
    · subst he
      have hz2 : ∀ k2 ∈ ks, g k2 = [] := fun k2 hk2 =>
        hz k2 (List.mem_cons_of_mem k hk2) (fun hc => hk (hc ▸ hk2))
      rw [List.flatMap_cons, flatMap_eq_nil_of_forall ks g hz2, List.append_nil]
    · have hm2 : key0 ∈ ks := by
        rcases List.mem_cons.mp hm with hc | hc
        · exact absurd hc.symm he
        · exact hc
      rw [List.flatMap_cons, hz k (List.mem_cons_self k ks) he, List.nil_append,
        ih hks hm2 (fun k2 hk2 => hz k2 (List.mem_cons_of_mem k hk2))]

theorem filter_dedupFAux_of_nodup [DecidableEq α] (l : List α) (p : α → Bool) :
    ∀ (seen : List α), (l.filter p).Nodup → (∀ x ∈ seen, x ∉ l.filter p) →
      (dedupFAux seen l).filter p = l.filter p := by
  induction l with
  | nil => intro seen _ _; rfl
  | cons a t ih =>
    intro seen hnd hseen
    by_cases h : a ∈ seen
    · rw [dedupFAux, if_pos h]
      by_cases hpa : p a = true
      · exact absurd (by rw [List.filter_cons, if_pos hpa]; exact List.mem_cons_self a _)
          (hseen a h)
      · rw [List.filter_cons, if_neg hpa] at hnd ⊢
        exact ih seen hnd (fun x hx hmem => hseen x hx (by
          rw [List.filter_cons, if_neg hpa]; exact hmem))
    · rw [dedupFAux, if_neg h]
      by_cases hpa : p a = true
      · rw [List.filter_cons, if_pos hpa] at hnd ⊢
        rcases List.nodup_cons.mp hnd with ⟨hna, hnd'⟩
        have hih := ih (a :: seen) hnd' (by
          intro x hx
          rcases List.mem_cons.mp hx with rfl | hx
          · exact hna
          · intro hmem
            exact hseen x hx (by
              rw [List.filter_cons, if_pos hpa]; exact List.mem_cons_of_mem a hmem))
        rw [List.filter_cons, if_pos hpa, hih]
      · rw [List.filter_cons, if_neg hpa] at hnd
        have hih := ih (a :: seen) hnd (by
          intro x hx
          rcases List.mem_cons.mp hx with rfl | hx
          · intro hmem
            exact hpa (List.of_mem_filter hmem)
          · intro hmem
            exact hseen x hx (by rw [List.filter_cons, if_neg hpa]; exact hmem))
        rw [List.filter_cons, if_neg hpa, List.filter_cons, if_neg hpa, hih]

theorem filter_dedupF_of_nodup [DecidableEq α] (l : List α) (p : α → Bool)
    (h : (l.filter p).Nodup) : (dedupF l).filter p = l.filter p :=
  filter_dedupFAux_of_nodup l p [] h (by simp)

theorem eq_singleton_of_nodup {α : Type} (l : List α) (a : α)
    (hn : l.Nodup) (hall : ∀ x ∈ l, x = a) (hmem : a ∈ l) : l = [a] := by
  cases l with
  | nil => exact absurd hmem (List.not_mem_nil a)
  | cons b t =>
    have hb : b = a := hall b (List.mem_cons_self b t)
    subst hb
    cases t with
    | nil => rfl
    | cons c u =>
      have hc : c = b := hall c (List.mem_cons_of_mem b (List.mem_cons_self c u))
      rcases List.nodup_cons.mp hn with ⟨hnb, _⟩
      exact absurd (hc ▸ List.mem_cons_self c u) hnb

/-! ### Properties of the cursor walk `neg_walk` -/

/-- Every emitted interval starts at or after any lower bound of the cursor
and of the positives' right endpoints. -/
theorem neg_walk_left_ge (l : List (Int × Int)) : ∀ (b c e : Int),
    b ≤ c → (∀ x ∈ l, b ≤ x.2) →
    ∀ iv ∈ neg_walk c e l, b ≤ iv.1 := by
  induction l with
  | nil =>
    intro b c e hbc _ iv hiv
    by_cases h : c < e
    · rw [neg_walk, if_pos h] at hiv
      rcases List.mem_cons.mp hiv with rfl | hiv
      · exact hbc
      · exact absurd hiv (List.not_mem_nil iv)
    · rw [neg_walk, if_neg h] at hiv
      exact absurd hiv (List.not_mem_nil iv)
  | cons x t ih =>
    intro b c e hbc hte iv hiv
    rcases x with ⟨ts, te⟩
    by_cases h : c < ts
    · rw [neg_walk, if_pos h] at hiv
      rcases List.mem_cons.mp hiv with rfl | hiv
      · exact hbc
      · exact ih b te e (hte (ts, te) (List.mem_cons_self _ _))
          (fun y hy => hte y (List.mem_cons_of_mem _ hy)) iv hiv
    · rw [neg_walk, if_neg h] at hiv
      exact ih b te e (hte (ts, te) (List.mem_cons_self _ _))
        (fun y hy => hte y (List.mem_cons_of_mem _ hy)) iv hiv

/-- Every emitted interval is nonempty, starts at or after the cursor's lower
bound, and ends at or before the right edge. -/
theorem neg_walk_bounds (l : List (Int × Int)) : ∀ (b c e : Int),
    b ≤ c → (∀ x ∈ l, b ≤ x.2) → (∀ x ∈ l, x.1 ≤ e) →
    ∀ iv ∈ neg_walk c e l, b ≤ iv.1 ∧ iv.1 < iv.2 ∧ iv.2 ≤ e := by
  induction l with
  | nil =>
    intro b c e hbc _ _ iv hiv
    by_cases h : c < e
    · rw [neg_walk, if_pos h] at hiv
      rcases List.mem_cons.mp hiv with rfl | hiv
      · exact ⟨hbc, h, le_refl e⟩
      · exact absurd hiv (List.not_mem_nil iv)
    · rw [neg_walk, if_neg h] at hiv
      exact absurd hiv (List.not_mem_nil iv)
  | cons x t ih =>
    intro b c e hbc hte hts iv hiv
    rcases x with ⟨ts, te⟩
    by_cases h : c < ts
    · rw [neg_walk, if_pos h] at hiv
      rcases List.mem_cons.mp hiv with rfl | hiv
      · exact ⟨hbc, h, hts (ts, te) (List.mem_cons_self _ _)⟩
      · exact ih b te e (hte (ts, te) (List.mem_cons_self _ _))
          (fun y hy => hte y (List.mem_cons_of_mem _ hy))
          (fun y hy => hts y (List.mem_cons_of_mem _ hy)) iv hiv
    · rw [neg_walk, if_neg h] at hiv
      exact ih b te e (hte (ts, te) (List.mem_cons_self _ _))
        (fun y hy => hte y (List.mem_cons_of_mem _ hy))
        (fun y hy => hts y (List.mem_cons_of_mem _ hy)) iv hiv

/-- With the positives sorted by start and each one well-formed, the emitted
intervals are pairwise ordered: each ends no later than the next begins. -/
theorem neg_walk_chain (l : List (Int × Int)) : ∀ (c e : Int),
    l.Pairwise (fun x y => x.1 ≤ y.1) → (∀ x ∈ l, x.1 ≤ x.2) →
    (neg_walk c e l).Pairwise (fun u v => u.2 ≤ v.1) := by
  induction l with
  | nil =>
    intro c e _ _
    by_cases h : c < e
    · rw [neg_walk, if_pos h]
      exact List.pairwise_singleton _ _
    · rw [neg_walk, if_neg h]
      exact List.Pairwise.nil
  | cons x t ih =>
    intro c e hsort hwf
    rcases x with ⟨ts, te⟩
    rcases List.pairwise_cons.mp hsort with ⟨hhd, htail⟩
    by_cases h : c < ts
    · rw [neg_walk, if_pos h]
      refine List.pairwise_cons.mpr ⟨?_, ih te e htail
        (fun y hy => hwf y (List.mem_cons_of_mem _ hy))⟩
      intro v hv
      exact neg_walk_left_ge t ts te e (hwf (ts, te) (List.mem_cons_self _ _))
        (fun y hy => le_trans (hhd y hy) (hwf y (List.mem_cons_of_mem _ hy))) v hv
    · rw [neg_walk, if_neg h]
      exact ih te e htail (fun y hy => hwf y (List.mem_cons_of_mem _ hy))

/-- Every point of `[c, e]` lies in an emitted interval or in one of the
positives, provided `c < e`. -/
theorem neg_walk_cover (l : List (Int × Int)) : ∀ (c e p : Int),
    c ≤ p → p ≤ e → c < e →
    (∃ iv ∈ neg_walk c e l, iv.1 ≤ p ∧ p ≤ iv.2) ∨ (∃ x ∈ l, x.1 ≤ p ∧ p ≤ x.2) := by
  induction l with
  | nil =>
    intro c e p hcp hpe hce
    rw [neg_walk, if_pos hce]
    exact Or.inl ⟨(c, e), List.mem_cons_self _ _, hcp, hpe⟩
  | cons x t ih =>
    intro c e p hcp hpe hce
    rcases x with ⟨ts, te⟩
    by_cases h : c < ts
    · rw [neg_walk, if_pos h]
      by_cases hp : p ≤ ts
      · exact Or.inl ⟨(c, ts), List.mem_cons_self _ _, hcp, hp⟩
      · by_cases hp2 : p ≤ te
        · exact Or.inr ⟨(ts, te), List.mem_cons_self _ _, le_of_lt (not_le.mp hp), hp2⟩
        · have hlt : te < p := not_le.mp hp2
          rcases ih te e p (le_of_lt hlt) hpe (lt_of_lt_of_le hlt hpe) with h1 | h2
          · rcases h1 with ⟨iv, hiv, hb⟩
            exact Or.inl ⟨iv, List.mem_cons_of_mem _ hiv, hb⟩
          · rcases h2 with ⟨y, hy, hb⟩
            exact Or.inr ⟨y, List.mem_cons_of_mem _ hy, hb⟩
    · rw [neg_walk, if_neg h]
      by_cases hp2 : p ≤ te
      · exact Or.inr ⟨(ts, te), List.mem_cons_self _ _, le_trans (not_lt.mp h) hcp, hp2⟩
      · have hlt : te < p := not_le.mp hp2
        rcases ih te e p (le_of_lt hlt) hpe (lt_of_lt_of_le hlt hpe) with h1 | h2
        · exact Or.inl h1
        · rcases h2 with ⟨y, hy, hb⟩
          exact Or.inr ⟨y, List.mem_cons_of_mem _ hy, hb⟩

/-- Membership in `neg_positives`: exactly the rows with non-null triangle
columns, projected. -/
theorem mem_neg_positives (rows : List NegOverlapRow) (x : Int × String × Int × Int × Int × Int) :
    x ∈ neg_positives rows ↔ ∃ r ∈ rows, ∃ ts te, r.tri_start = some ts ∧
      r.tri_end = some te ∧ x = (r.overlap, r.chromosome, r.start, r.end_, ts, te) := by
  rw [neg_positives, List.mem_filterMap]
  constructor
  · rintro ⟨r, hr, hfr⟩
    cases hts : r.tri_start with
    | none => rw [hts] at hfr; cases hfr
    | some ts =>
      cases hte : r.tri_end with
      | none => rw [hts, hte] at hfr; cases hfr
      | some te =>
        rw [hts, hte] at hfr
        cases hfr
        exact ⟨r, hr, ts, te, hts, hte, rfl⟩
  · rintro ⟨r, hr, ts, te, hts, hte, rfl⟩
    exact ⟨r, hr, by rw [hts, hte]⟩

/-- Every row of `neg_base` is the projection of a query row with null
triangle columns. -/
theorem mem_neg_base (rows : List NegOverlapRow) (iv : NegTriRow) :
    iv ∈ neg_base rows ↔ ∃ r ∈ rows, r.tri_start = none ∧
      iv = ⟨r.overlap, r.chromosome, r.start, r.end_⟩ := by
  rw [neg_base, mem_dedupF, List.mem_filterMap]
  constructor
  · rintro ⟨r, hr, hfr⟩
    split at hfr
    · cases hfr
      exact ⟨r, hr, Option.isNone_iff_eq_none.mp (by assumption), rfl⟩
    · cases hfr
  · rintro ⟨r, hr, hts, rfl⟩
    refine ⟨r, hr, ?_⟩
    rw [hts]
    rfl

/-- Characterisation of the `select_neg_overlap` rows carrying a given
overlap id, under referential integrity of the store. -/
theorem select_neg_overlap_char (st : Store) (s : Int) (o : OverlapRow) (so : SegmentRow)
    (hfs : find_segment st o.segment = some so)
    (huniq : ∀ o2 ∈ st.overlaps, o2.id = o.id → o2 = o)
    (htri_wf : ∀ t ∈ st.triangles, (find_segment st t.segment).isSome = true)
    (hseg_wf : ∀ g ∈ st.segments, g.start ≤ g.end_) :
    ∀ r ∈ select_neg_overlap st s, r.overlap = o.id →
      r.chromosome = so.chromosome ∧ r.start = so.start ∧ r.end_ = so.end_ ∧
      ((r.tri_start = none ∧ r.tri_end = none ∧ overlap_tris st o = []) ∨
       (overlap_tris st o ≠ [] ∧ ∃ ts te, r.tri_start = some ts ∧ r.tri_end = some te ∧
          ts ≤ te ∧ ts ≤ so.end_ ∧ so.start ≤ te)) := by
  intro r hr hro
  rw [select_neg_overlap, List.mem_flatMap] at hr
  rcases hr with ⟨o2, ho2, hr⟩
  have ho2m : o2 ∈ st.overlaps := (List.mem_filter.mp ho2).1
  cases hfs2 : find_segment st o2.segment with
  | none => rw [hfs2] at hr; exact absurd hr (List.not_mem_nil r)
  | some so2 =>
    rw [hfs2] at hr
    simp only at hr
    have hov : r.overlap = o2.id := by
      by_cases he : (overlap_tris st o2).isEmpty
      · rw [if_pos he] at hr
        rw [List.mem_singleton] at hr
        subst hr
        rfl
      · rw [if_neg he] at hr
        rcases List.mem_filterMap.mp hr with ⟨t, _, hft⟩
        cases hft2 : find_segment st t.segment with
        | none =>
          rw [hft2] at hft
          simp only at hft
          cases hft
          rfl
        | some gt =>
          rw [hft2] at hft
          simp only at hft
          by_cases hc : (gt.chromosome == so2.chromosome) = true ∧
              gt.start ≤ so2.end_ ∧ so2.start ≤ gt.end_
          · rw [if_pos hc] at hft
            cases hft
            rfl
          · rw [if_neg hc] at hft
            cases hft
    have ho2o : o2 = o := huniq o2 ho2m (by rw [← hov]; exact hro)
    subst ho2o
    rw [hfs] at hfs2
    have hso : so2 = so := (Option.some.inj hfs2).symm
    subst hso
    by_cases he : (overlap_tris st o2).isEmpty
    · rw [if_pos he] at hr
      rw [List.mem_singleton] at hr
      subst hr
      exact ⟨rfl, rfl, rfl, Or.inl ⟨rfl, rfl, List.isEmpty_iff.mp he⟩⟩
    · rw [if_neg he] at hr
      have hne : overlap_tris st o2 ≠ [] := fun hnil => he (by rw [hnil]; rfl)
      rcases List.mem_filterMap.mp hr with ⟨t, ht, hft⟩
      have htm : t ∈ st.triangles := (List.mem_filter.mp ht).1
      cases hft2 : find_segment st t.segment with
      | none =>
        have hw := htri_wf t htm
        rw [hft2] at hw
        cases hw
      | some gt =>
        rw [hft2] at hft
        simp only at hft
        have hgtm : gt ∈ st.segments := by
          rw [find_segment] at hft2
          exact List.mem_of_find?_eq_some hft2
        by_cases hc : (gt.chromosome == so2.chromosome) = true ∧
            gt.start ≤ so2.end_ ∧ so2.start ≤ gt.end_
        · rw [if_pos hc] at hft
          cases hft
          exact ⟨rfl, rfl, rfl, Or.inr ⟨hne, gt.start, gt.end_, rfl, rfl,
            hseg_wf gt hgtm, hc.2.1, hc.2.2⟩⟩
        · rw [if_neg hc] at hft
          cases hft

/-- When the kit triple has no triangle rows at all, the query emits the
whole-overlap row with null triangle columns. -/
theorem select_neg_overlap_none_mem (st : Store) (s : Int) (o : OverlapRow) (so : SegmentRow)
    (ho : o ∈ st.overlaps) (hs : o.source = s)
    (hfs : find_segment st o.segment = some so)
    (he : overlap_tris st o = []) :
    (⟨o.id, so.chromosome, so.start, so.end_, none, none⟩ : NegOverlapRow) ∈
      select_neg_overlap st s := by
  rw [select_neg_overlap, List.mem_flatMap]
  refine ⟨o, List.mem_filter.mpr ⟨ho, by simp [hs]⟩, ?_⟩
  rw [hfs]
  simp only
  rw [if_pos (by rw [he]; rfl)]
  exact List.mem_singleton.mpr rfl

/-- The mapped negative rows of one overlap's walk are pairwise distinct. -/
theorem neg_walk_map_nodup (c e : Int) (l : List (Int × Int)) (oid : Int) (chrom : String)
    (hsort : l.Pairwise (fun x y => x.1 ≤ y.1)) (hwf : ∀ x ∈ l, x.1 ≤ x.2)
    (hb : ∀ x ∈ l, c ≤ x.2) (hts : ∀ x ∈ l, x.1 ≤ e) :
    ((neg_walk c e l).map (fun iv => NegTriRow.mk oid chrom iv.1 iv.2)).Nodup := by
  have hchain := neg_walk_chain l c e hsort hwf
  have hbounds := neg_walk_bounds l c c e (le_refl c) hb hts
  apply List.Nodup.map_on
  · intro x hx y hy hxy
    have h1 : x.1 = y.1 := congrArg NegTriRow.start hxy
    have h2 : x.2 = y.2 := congrArg NegTriRow.end_ hxy
    exact Prod.ext h1 h2
  · have hlt : (neg_walk c e l).Pairwise (fun u v => u.1 < v.1) := by
      refine hchain.imp_of_mem ?_
      intro a b ha hb2 hab
      exact lt_of_lt_of_le (hbounds a ha).2.1 hab
    exact hlt.imp (fun hab he2 => absurd (congrArg Prod.fst he2) (ne_of_lt hab))

/-- The non-null query rows carrying the overlap id all carry the overlap's
segment fields, well-formed intersecting triangle intervals, and witness that
the kit triple has triangles. -/
theorem C2_nn_char (st : Store) (s : Int) (o : OverlapRow) (so : SegmentRow)
    (hfs : find_segment st o.segment = some so)
    (huniq : ∀ o2 ∈ st.overlaps, o2.id = o.id → o2 = o)
    (htri_wf : ∀ t ∈ st.triangles, (find_segment st t.segment).isSome = true)
    (hseg_wf : ∀ g ∈ st.segments, g.start ≤ g.end_) :
    ∀ x ∈ neg_positives (select_neg_overlap st s), x.1 = o.id →
      x.2.1 = so.chromosome ∧ x.2.2.1 = so.start ∧ x.2.2.2.1 = so.end_ ∧
      x.2.2.2.2.1 ≤ x.2.2.2.2.2 ∧ x.2.2.2.2.1 ≤ so.end_ ∧ so.start ≤ x.2.2.2.2.2 ∧
      overlap_tris st o ≠ [] := by
  intro x hx hxo
  rcases (mem_neg_positives _ x).mp hx with ⟨r, hr, ts, te, hts, hte, hxeq⟩
  subst hxeq
  have hc := select_neg_overlap_char st s o so hfs huniq htri_wf hseg_wf r hr hxo
  rcases hc with ⟨h1, h2, h3, h4 | h4⟩
  · rw [hts] at h4
    exact absurd h4.1 (by simp)
  · rcases h4 with ⟨hne, ts2, te2, hts2, hte2, hwf2, hlb, hub⟩
    rw [hts] at hts2
    rw [hte] at hte2
    cases Option.some.inj hts2
    cases Option.some.inj hte2
    exact ⟨h1, h2, h3, hwf2, hlb, hub, hne⟩

/-- The `neg_base` rows carrying the overlap id are exactly the whole-overlap
row, and exist only when the kit triple has no triangles. -/
theorem C2_base_char (st : Store) (s : Int) (o : OverlapRow) (so : SegmentRow)
    (hfs : find_segment st o.segment = some so)
    (huniq : ∀ o2 ∈ st.overlaps, o2.id = o.id → o2 = o)
    (htri_wf : ∀ t ∈ st.triangles, (find_segment st t.segment).isSome = true)
    (hseg_wf : ∀ g ∈ st.segments, g.start ≤ g.end_) :
    ∀ iv ∈ neg_base (select_neg_overlap st s), iv.overlap = o.id →
      iv = ⟨o.id, so.chromosome, so.start, so.end_⟩ ∧ overlap_tris st o = [] := by
  intro iv hiv hivo
  rcases (mem_neg_base _ iv).mp hiv with ⟨r, hr, hts, hiveq⟩
  subst hiveq
  have hc := select_neg_overlap_char st s o so hfs huniq htri_wf hseg_wf r hr hivo
  rcases hc with ⟨h1, h2, h3, h4 | h4⟩
  · refine ⟨?_, h4.2.2⟩
    rw [show r.overlap = o.id from hivo, h1, h2, h3]
  · rcases h4 with ⟨_, ts, te, hts2, _⟩
    rw [hts] at hts2
    cases hts2

/-- Every group key carrying the overlap id is the (id, chromosome) pair of
the overlap's segment. -/
theorem C2_keys_char (st : Store) (s : Int) (o : OverlapRow) (so : SegmentRow)
    (hfs : find_segment st o.segment = some so)
    (huniq : ∀ o2 ∈ st.overlaps, o2.id = o.id → o2 = o)
    (htri_wf : ∀ t ∈ st.triangles, (find_segment st t.segment).isSome = true)
    (hseg_wf : ∀ g ∈ st.segments, g.start ≤ g.end_) :
    ∀ k ∈ neg_keys (select_neg_overlap st s), k.1 = o.id → k = (o.id, so.chromosome) := by
  intro k hk hko
  rw [neg_keys, mem_insSort, mem_dedupF, List.mem_map] at hk
  rcases hk with ⟨x, hx, hkeq⟩
  subst hkeq
  have hc := C2_nn_char st s o so hfs huniq htri_wf hseg_wf x hx hko
  rw [show x.1 = o.id from hko, hc.1]

/-- The overlap's group key is present iff the overlap has non-null query
rows. -/
theorem C2_key0_mem (st : Store) (s : Int) (o : OverlapRow) (so : SegmentRow)
    (hfs : find_segment st o.segment = some so)
    (huniq : ∀ o2 ∈ st.overlaps, o2.id = o.id → o2 = o)
    (htri_wf : ∀ t ∈ st.triangles, (find_segment st t.segment).isSome = true)
    (hseg_wf : ∀ g ∈ st.segments, g.start ≤ g.end_) :
    (o.id, so.chromosome) ∈ neg_keys (select_neg_overlap st s) ↔
      (neg_positives (select_neg_overlap st s)).filter (fun x => x.1 == o.id) ≠ [] := by
  rw [neg_keys, mem_insSort, mem_dedupF, List.mem_map]
  constructor
  · rintro ⟨x, hx, hkeq⟩ hnil
    have hx1 : x.1 = o.id := congrArg Prod.fst hkeq
    have hxf : x ∈ (neg_positives (select_neg_overlap st s)).filter (fun x => x.1 == o.id) :=
      List.mem_filter.mpr ⟨hx, by simp [hx1]⟩
    rw [hnil] at hxf
    exact absurd hxf (List.not_mem_nil x)
  · intro hne
    rcases List.exists_mem_of_ne_nil _ hne with ⟨x, hxf⟩
    rcases List.mem_filter.mp hxf with ⟨hx, hxb⟩
    have hx1 : x.1 = o.id := by simpa using hxb
    have hc := C2_nn_char st s o so hfs huniq htri_wf hseg_wf x hx hx1
    exact ⟨x, hx, by rw [hx1, hc.1]⟩

/-- For the overlap's key, the group is exactly the non-null rows carrying
the overlap id: the chromosome conjunct of the key filter is redundant. -/
theorem C2_grp_eq (st : Store) (s : Int) (o : OverlapRow) (so : SegmentRow)
    (hfs : find_segment st o.segment = some so)
    (huniq : ∀ o2 ∈ st.overlaps, o2.id = o.id → o2 = o)
    (htri_wf : ∀ t ∈ st.triangles, (find_segment st t.segment).isSome = true)
    (hseg_wf : ∀ g ∈ st.segments, g.start ≤ g.end_) :
    neg_group (select_neg_overlap st s) (o.id, so.chromosome) =
      (neg_positives (select_neg_overlap st s)).filter (fun x => x.1 == o.id) := by
  rw [neg_group]
  apply List.filter_congr
  intro x hx
  by_cases hb : x.1 = o.id
  · have hc := C2_nn_char st s o so hfs huniq htri_wf hseg_wf x hx hb
    simp [hb, hc.1]
  · simp [hb]

/-- The persisted remain rows carrying the overlap id come from the overlap's
group alone. -/
theorem C2_remain_eq (st : Store) (s : Int) (o : OverlapRow) (so : SegmentRow)
    (hfs : find_segment st o.segment = some so)
    (huniq : ∀ o2 ∈ st.overlaps, o2.id = o.id → o2 = o)
    (htri_wf : ∀ t ∈ st.triangles, (find_segment st t.segment).isSome = true)
    (hseg_wf : ∀ g ∈ st.segments, g.start ≤ g.end_) :
    (neg_remain (select_neg_overlap st s)).filter (fun r => r.overlap == o.id) =
      if (o.id, so.chromosome) ∈ neg_keys (select_neg_overlap st s)
      then (neg_group_walk (select_neg_overlap st s) (o.id, so.chromosome)).filter
        (fun r => r.overlap == o.id)
      else [] := by
  rw [neg_remain, filter_flatMap]
  have hz : ∀ k ∈ neg_keys (select_neg_overlap st s), k ≠ (o.id, so.chromosome) →
      (neg_group_walk (select_neg_overlap st s) k).filter (fun r => r.overlap == o.id) = [] := by
    intro k hk hkne
    have hk1 : k.1 ≠ o.id := fun h =>
      hkne (C2_keys_char st s o so hfs huniq htri_wf hseg_wf k hk h)
    unfold neg_group_walk
    cases hgrp : neg_group (select_neg_overlap st s) k with
    | nil => rfl
    | cons g0 gt =>
      simp only
      refine List.eq_nil_iff_forall_not_mem.mpr fun x hx => ?_
      rcases List.mem_filter.mp hx with ⟨hxm, hxb⟩
      rcases List.mem_map.mp hxm with ⟨iv, _, rfl⟩
      exact hk1 (by simpa using hxb)
  by_cases hm : (o.id, so.chromosome) ∈ neg_keys (select_neg_overlap st s)
  · rw [if_pos hm]
    exact flatMap_eq_single_of_mem _ _ _
      (by rw [neg_keys]; exact ((insSort_perm _ _).nodup_iff).mpr (dedupF_nodup _)) hm hz
  · rw [if_neg hm]
    exact flatMap_eq_single_of_not_mem _ _ _ hm hz

/-- The persisted base rows carrying the overlap id: the whole-overlap
interval when the kit triple has no triangles, nothing otherwise. -/
theorem C2_base_eq (st : Store) (s : Int) (o : OverlapRow) (so : SegmentRow)
    (ho : o ∈ st.overlaps) (hs : o.source = s)
    (hfs : find_segment st o.segment = some so)
    (huniq : ∀ o2 ∈ st.overlaps, o2.id = o.id → o2 = o)
    (htri_wf : ∀ t ∈ st.triangles, (find_segment st t.segment).isSome = true)
    (hseg_wf : ∀ g ∈ st.segments, g.start ≤ g.end_) :
    (neg_base (select_neg_overlap st s)).filter (fun r => r.overlap == o.id) =
      if overlap_tris st o = []
      then [(⟨o.id, so.chromosome, so.start, so.end_⟩ : NegTriRow)] else [] := by
  by_cases he : overlap_tris st o = []
  · rw [if_pos he]
    apply eq_singleton_of_nodup
    · rw [neg_base]
      exact (dedupF_nodup _).filter _
    · intro x hx
      rcases List.mem_filter.mp hx with ⟨hxm, hxb⟩
      exact (C2_base_char st s o so hfs huniq htri_wf hseg_wf x hxm (by simpa using hxb)).1
    · refine List.mem_filter.mpr ⟨?_, by simp⟩
      refine (mem_neg_base _ _).mpr
        ⟨⟨o.id, so.chromosome, so.start, so.end_, none, none⟩,
          select_neg_overlap_none_mem st s o so ho hs hfs he, rfl, rfl⟩
  · rw [if_neg he]
    refine List.eq_nil_iff_forall_not_mem.mpr fun x hx => ?_
    rcases List.mem_filter.mp hx with ⟨hxm, hxb⟩
    exact he (C2_base_char st s o so hfs huniq htri_wf hseg_wf x hxm (by simpa using hxb)).2

/-- When the overlap has non-null query rows, its persisted remain rows are
exactly the cursor walk over its sorted positives. -/
theorem C2_walk_eq (st : Store) (s : Int) (o : OverlapRow) (so : SegmentRow)
    (hfs : find_segment st o.segment = some so)
    (huniq : ∀ o2 ∈ st.overlaps, o2.id = o.id → o2 = o)
    (htri_wf : ∀ t ∈ st.triangles, (find_segment st t.segment).isSome = true)
    (hseg_wf : ∀ g ∈ st.segments, g.start ≤ g.end_)
    (hne : (neg_positives (select_neg_overlap st s)).filter (fun x => x.1 == o.id) ≠ []) :
    (neg_remain (select_neg_overlap st s)).filter (fun r => r.overlap == o.id) =
      (neg_walk so.start so.end_ (insSort (fun a b => a.1 ≤ b.1)
        (((neg_positives (select_neg_overlap st s)).filter (fun x => x.1 == o.id)).map
          (fun x => (x.2.2.2.2.1, x.2.2.2.2.2))))).map
        (fun iv => NegTriRow.mk o.id so.chromosome iv.1 iv.2) := by
  rw [C2_remain_eq st s o so hfs huniq htri_wf hseg_wf,
    if_pos ((C2_key0_mem st s o so hfs huniq htri_wf hseg_wf).mpr hne)]
  unfold neg_group_walk
  rw [C2_grp_eq st s o so hfs huniq htri_wf hseg_wf]
  cases hg : (neg_positives (select_neg_overlap st s)).filter (fun x => x.1 == o.id) with
  | nil => exact absurd hg hne
  | cons g0 gt =>
    simp only
    have hg0 : g0 ∈ (neg_positives (select_neg_overlap st s)).filter (fun x => x.1 == o.id) := by
      rw [hg]
      exact List.mem_cons_self _ _
    rcases List.mem_filter.mp hg0 with ⟨hg0m, hg0b⟩
    have hg01 : g0.1 = o.id := by simpa using hg0b
    have hc := C2_nn_char st s o so hfs huniq htri_wf hseg_wf g0 hg0m hg01
    rw [hc.2.1, hc.2.2.1]
    refine List.filter_eq_self.mpr fun x hx => ?_
    rcases List.mem_map.mp hx with ⟨iv, _, rfl⟩
    simp

/-- The sorted positives of the overlap's group are well-formed intervals
intersecting the overlap, listed in order of their starts. -/
theorem C2_pos_facts (st : Store) (s : Int) (o : OverlapRow) (so : SegmentRow)
    (hfs : find_segment st o.segment = some so)
    (huniq : ∀ o2 ∈ st.overlaps, o2.id = o.id → o2 = o)
    (htri_wf : ∀ t ∈ st.triangles, (find_segment st t.segment).isSome = true)
    (hseg_wf : ∀ g ∈ st.segments, g.start ≤ g.end_) :
    (∀ y ∈ insSort (fun a b => a.1 ≤ b.1)
        (((neg_positives (select_neg_overlap st s)).filter (fun x => x.1 == o.id)).map
          (fun x => (x.2.2.2.2.1, x.2.2.2.2.2))),
      y.1 ≤ y.2 ∧ so.start ≤ y.2 ∧ y.1 ≤ so.end_) ∧
    (insSort (fun a b => a.1 ≤ b.1)
        (((neg_positives (select_neg_overlap st s)).filter (fun x => x.1 == o.id)).map
          (fun x => (x.2.2.2.2.1, x.2.2.2.2.2)))).Pairwise (fun x y => x.1 ≤ y.1) := by
  constructor
  · intro y hy
    rw [mem_insSort, List.mem_map] at hy
    rcases hy with ⟨g, hg, hyeq⟩
    cases hyeq
    rcases List.mem_filter.mp hg with ⟨hgm, hgb⟩
    have hc := C2_nn_char st s o so hfs huniq htri_wf hseg_wf g hgm (by simpa using hgb)
    exact ⟨hc.2.2.2.1, hc.2.2.2.2.2.1, hc.2.2.2.2.1⟩
  · have hsorted := insSort_sorted (fun (a b : Int × Int) => decide (a.1 ≤ b.1))
      (fun a b => by
        rcases Int.le_total a.1 b.1 with h | h
        · exact Or.inl (decide_eq_true h)
        · exact Or.inr (decide_eq_true h))
      (fun a b c hab hbc =>
        decide_eq_true (le_trans (of_decide_eq_true hab) (of_decide_eq_true hbc)))
      (((neg_positives (select_neg_overlap st s)).filter (fun x => x.1 == o.id)).map
        (fun x => (x.2.2.2.2.1, x.2.2.2.2.2)))
    exact hsorted.imp (fun h => of_decide_eq_true h)

/-- C2: under referential integrity (overlap ids unique, all triangle and
overlap segments resolve, segments well-formed) and a nondegenerate overlap
interval, the negative rows persisted for an overlap `O` of source `s` are
nonempty subintervals of `O` on its chromosome and pairwise disjoint in
order.  When the query emits at least one row for `O`, the negatives together
with the recorded positive triangle intervals cover every point of `O`.  When
the kit triple has no triangle rows at all, the whole interval of `O` is the
single negative.  But when the query emits no row for `O` — as happens when
triangles exist for the triple and none intersects `O` — no negative interval
at all is persisted for `O`, so the claimed unconditional tiling fails there. -/
theorem C2_amended (st : Store) (s : Int) (o : OverlapRow) (so : SegmentRow)
    (ho : o ∈ st.overlaps) (hs : o.source = s)
    (hfs : find_segment st o.segment = some so)
    (hlt : so.start < so.end_)
    (huniq : ∀ o2 ∈ st.overlaps, o2.id = o.id → o2 = o)
    (htri_wf : ∀ t ∈ st.triangles, (find_segment st t.segment).isSome = true)
    (hseg_wf : ∀ g ∈ st.segments, g.start ≤ g.end_) :
    (∀ iv ∈ overlap_neg_rows st s o.id, iv.chromosome = so.chromosome ∧
      so.start ≤ iv.start ∧ iv.start < iv.end_ ∧ iv.end_ ≤ so.end_) ∧
    (overlap_neg_rows st s o.id).Pairwise (fun u v => u.end_ ≤ v.start) ∧
    ((∃ r ∈ select_neg_overlap st s, r.overlap = o.id) →
      ∀ p : Int, so.start ≤ p → p ≤ so.end_ →
        (∃ iv ∈ overlap_neg_rows st s o.id, iv.start ≤ p ∧ p ≤ iv.end_) ∨
        (∃ x ∈ overlap_pos_rows st s o.id, x.1 ≤ p ∧ p ≤ x.2)) ∧
    (overlap_tris st o = [] →
      overlap_neg_rows st s o.id = [⟨o.id, so.chromosome, so.start, so.end_⟩]) ∧
    ((∀ r ∈ select_neg_overlap st s, r.overlap ≠ o.id) →
      overlap_neg_rows st s o.id = []) := by
  have hnn := C2_nn_char st s o so hfs huniq htri_wf hseg_wf
  have hposf := C2_pos_facts st s o so hfs huniq htri_wf hseg_wf
  have htris_grpO : overlap_tris st o = [] →
      (neg_positives (select_neg_overlap st s)).filter (fun x => x.1 == o.id) = [] := by
    intro he
    refine List.eq_nil_iff_forall_not_mem.mpr fun x hx => ?_
    rcases List.mem_filter.mp hx with ⟨hxm, hxb⟩
    exact (hnn x hxm (by simpa using hxb)).2.2.2.2.2.2 he
  have hremain_cases :
      ((neg_positives (select_neg_overlap st s)).filter (fun x => x.1 == o.id) = [] ∧
        (neg_remain (select_neg_overlap st s)).filter (fun r => r.overlap == o.id) = []) ∨
      ((neg_positives (select_neg_overlap st s)).filter (fun x => x.1 == o.id) ≠ [] ∧
        (neg_remain (select_neg_overlap st s)).filter (fun r => r.overlap == o.id) =
          (neg_walk so.start so.end_ (insSort (fun a b => a.1 ≤ b.1)
            (((neg_positives (select_neg_overlap st s)).filter (fun x => x.1 == o.id)).map
              (fun x => (x.2.2.2.2.1, x.2.2.2.2.2))))).map
            (fun iv => NegTriRow.mk o.id so.chromosome iv.1 iv.2)) := by
    by_cases hg : (neg_positives (select_neg_overlap st s)).filter (fun x => x.1 == o.id) = []
    · refine Or.inl ⟨hg, ?_⟩
      rw [C2_remain_eq st s o so hfs huniq htri_wf hseg_wf,
        if_neg (fun hm => (C2_key0_mem st s o so hfs huniq htri_wf hseg_wf).mp hm hg)]
    · exact Or.inr ⟨hg, C2_walk_eq st s o so hfs huniq htri_wf hseg_wf hg⟩
  have hsplit : overlap_neg_rows st s o.id =
      (neg_base (select_neg_overlap st s)).filter (fun r => r.overlap == o.id) ++
      (neg_remain (select_neg_overlap st s)).filter (fun r => r.overlap == o.id) := by
    have hnodup : (((neg_base (select_neg_overlap st s) ++
        neg_remain (select_neg_overlap st s))).filter (fun r => r.overlap == o.id)).Nodup := by
      rw [List.filter_append]
      rcases hremain_cases with ⟨hg0, hr0⟩ | ⟨hgne, hreq⟩
      · rw [hr0, List.append_nil, neg_base]
        exact (dedupF_nodup _).filter _
      · have hne : overlap_tris st o ≠ [] := by
          rcases List.exists_mem_of_ne_nil _ hgne with ⟨x, hx⟩
          rcases List.mem_filter.mp hx with ⟨hxm, hxb⟩
          exact (hnn x hxm (by simpa using hxb)).2.2.2.2.2.2
        rw [C2_base_eq st s o so ho hs hfs huniq htri_wf hseg_wf, if_neg hne,
          List.nil_append, hreq]
        exact neg_walk_map_nodup _ _ _ _ _ hposf.2
          (fun x hx => (hposf.1 x hx).1)
          (fun x hx => (hposf.1 x hx).2.1)
          (fun x hx => (hposf.1 x hx).2.2)
    rw [overlap_neg_rows, filter_dedupF_of_nodup _ _ hnodup, List.filter_append]
  refine ⟨?_, ?_, ?_, ?_, ?_⟩
  · -- (a) bounds
    intro iv hiv
    rw [hsplit, List.mem_append] at hiv
    rcases hiv with hiv | hiv
    · rcases List.mem_filter.mp hiv with ⟨hm, hb⟩
      obtain ⟨hivEq, -⟩ :=
        C2_base_char st s o so hfs huniq htri_wf hseg_wf iv hm (by simpa using hb)
      subst hivEq
      exact ⟨rfl, le_refl _, hlt, le_refl _⟩
    · rcases hremain_cases with ⟨hg0, hr0⟩ | ⟨hgne, hreq⟩
      · rw [hr0] at hiv
        exact absurd hiv (List.not_mem_nil iv)
      · rw [hreq] at hiv
        rcases List.mem_map.mp hiv with ⟨ivp, hivp, rfl⟩
        have hb := neg_walk_bounds _ so.start so.start so.end_ (le_refl _)
          (fun x hx => (hposf.1 x hx).2.1) (fun x hx => (hposf.1 x hx).2.2) ivp hivp
        exact ⟨rfl, hb.1, hb.2.1, hb.2.2⟩
  · -- (b) pairwise disjoint
    rw [hsplit]
    rcases hremain_cases with ⟨hg0, hr0⟩ | ⟨hgne, hreq⟩
    · rw [hr0, List.append_nil]
      by_cases he : overlap_tris st o = []
      · rw [C2_base_eq st s o so ho hs hfs huniq htri_wf hseg_wf, if_pos he]
        exact List.pairwise_singleton _ _
      · rw [C2_base_eq st s o so ho hs hfs huniq htri_wf hseg_wf, if_neg he]
        exact List.Pairwise.nil
    · have hne : overlap_tris st o ≠ [] := fun he => hgne (htris_grpO he)
      rw [C2_base_eq st s o so ho hs hfs huniq htri_wf hseg_wf, if_neg hne,
        List.nil_append, hreq, List.pairwise_map]
      have hchain := neg_walk_chain _ so.start so.end_ hposf.2 (fun x hx => (hposf.1 x hx).1)
      exact hchain.imp (fun h => h)
  · -- (c) coverage
    rintro ⟨r, hr, hro⟩ p hp1 hp2
    by_cases he : overlap_tris st o = []
    · left
      refine ⟨⟨o.id, so.chromosome, so.start, so.end_⟩, ?_, hp1, hp2⟩
      rw [hsplit]
      apply List.mem_append_left
      rw [C2_base_eq st s o so ho hs hfs huniq htri_wf hseg_wf, if_pos he]
      exact List.mem_singleton.mpr rfl
    · rcases select_neg_overlap_char st s o so hfs huniq htri_wf hseg_wf r hr hro with
        ⟨h1, h2, h3, h4 | h4⟩
      · exact absurd h4.2.2 he
      · rcases h4 with ⟨-, ts, te, hts, hte, -, -, -⟩
        have hxgrp : (r.overlap, r.chromosome, r.start, r.end_, ts, te) ∈
            (neg_positives (select_neg_overlap st s)).filter (fun x => x.1 == o.id) :=
          List.mem_filter.mpr
            ⟨(mem_neg_positives _ _).mpr ⟨r, hr, ts, te, hts, hte, rfl⟩, by simp [hro]⟩
        have hg : (neg_positives (select_neg_overlap st s)).filter (fun x => x.1 == o.id) ≠ [] :=
          fun h0 => by
            rw [h0] at hxgrp
            exact absurd hxgrp (List.not_mem_nil _)
        rcases hremain_cases with ⟨hg0, -⟩ | ⟨-, hreq⟩
        · exact absurd hg0 hg
        · rcases neg_walk_cover _ so.start so.end_ p hp1 hp2 hlt with
            ⟨iv, hiv, hb1, hb2⟩ | ⟨y, hy, hb1, hb2⟩
          · left
            refine ⟨NegTriRow.mk o.id so.chromosome iv.1 iv.2, ?_, hb1, hb2⟩
            rw [hsplit]
            apply List.mem_append_right
            rw [hreq]
            exact List.mem_map.mpr ⟨iv, hiv, rfl⟩
          · right
            rw [mem_insSort, List.mem_map] at hy
            rcases hy with ⟨g, hg2, hyeq⟩
            refine ⟨y, ?_, hb1, hb2⟩
            rw [overlap_pos_rows]
            exact List.mem_map.mpr ⟨g, hg2, hyeq⟩
  · -- (d) no triangles at all: the whole interval
    intro he
    rcases hremain_cases with ⟨-, hr0⟩ | ⟨hgne, -⟩
    · rw [hsplit, hr0, List.append_nil,
        C2_base_eq st s o so ho hs hfs huniq htri_wf hseg_wf, if_pos he]
    · exact absurd (htris_grpO he) hgne
  · -- (e) no query row for the overlap: nothing persisted
    intro hall
    have hb0 : (neg_base (select_neg_overlap st s)).filter (fun r => r.overlap == o.id) = [] := by
      refine List.eq_nil_iff_forall_not_mem.mpr fun x hx => ?_
      rcases List.mem_filter.mp hx with ⟨hxm, hxb⟩
      rcases (mem_neg_base _ x).mp hxm with ⟨r, hr, -, hxeq⟩
      subst hxeq
      exact hall r hr (by simpa using hxb)
    have hg0 : (neg_positives (select_neg_overlap st s)).filter (fun x => x.1 == o.id) = [] := by
      refine List.eq_nil_iff_forall_not_mem.mpr fun x hx => ?_
      rcases List.mem_filter.mp hx with ⟨hxm, hxb⟩
      rcases (mem_neg_positives _ x).mp hxm with ⟨r, hr, ts, te, -, -, hxeq⟩
      subst hxeq
      exact hall r hr (by simpa using hxb)
    rcases hremain_cases with ⟨-, hr0⟩ | ⟨hgne, -⟩
    · rw [hsplit, hb0, hr0]
      rfl
    · exact absurd hg0 hgne

/-! ### Source-table preservation through a rebuild (C4) -/

theorem foldl_sources {β : Type} (f : Store → β → Store)
    (h : ∀ st b, (f st b).sources = st.sources) (l : List β) :
    ∀ st : Store, (l.foldl f st).sources = st.sources := by
  induction l with
  | nil => intro st; rfl
  | cons a t ih =>
    intro st
    rw [List.foldl_cons, ih, h]

theorem insert_segment_sources (st : Store) (t : String × Int × Int) :
    (insert_segment st t).sources = st.sources := by
  rw [insert_segment]
  split <;> rfl

theorem insert_segments_sources (st : Store) (ts : List (String × Int × Int)) :
    (insert_segments st ts).sources = st.sources := by
  rw [insert_segments]
  exact foldl_sources insert_segment insert_segment_sources ts st

theorem set_segment_lengths_sources (st : Store) :
    (set_segment_lengths st).sources = st.sources := rfl

theorem insert_overlap_sources (st : Store) (s t1 t2 seg : Int) :
    (insert_overlap st s t1 t2 seg).sources = st.sources := by
  rw [insert_overlap]
  split <;> rfl

theorem insert_negative_sources (st : Store) (n : NegativeRow) :
    (insert_negative st n).sources = st.sources := by
  rw [insert_negative]
  split <;> rfl

theorem bn_st3_sources (st : Store) (s : Int) : (bn_st3 st s).sources = st.sources := by
  rw [bn_st3]
  have h := foldl_sources (fun acc c =>
      insert_overlap acc s c.target1 c.target2
        ((lookup_segment_id (bn_st1 st s) c.chromosome c.start c.end_).getD 0))
    (fun a c => insert_overlap_sources a s c.target1 c.target2 _)
    (bn_match_overlap st s) (bn_st2 st s)
  rw [h, bn_st2, set_segment_lengths_sources, bn_st1, insert_segments_sources]

theorem bn_st6a_sources (st : Store) (s : Int) : (bn_st6a st s).sources = st.sources := by
  rw [bn_st6a, foldl_sources insert_negative insert_negative_sources _, bn_st5,
    set_segment_lengths_sources, bn_st4, insert_segments_sources, bn_st3_sources]

theorem find?_map_kit (l : List SourceRow) (s : Int) (f : SourceRow → SourceRow)
    (hf : ∀ r, (f r).kit = r.kit) :
    (l.map f).find? (fun r => r.kit == s) = (l.find? (fun r => r.kit == s)).map f := by
  induction l with
  | nil => rfl
  | cons a t ih =>
    by_cases hp : (a.kit == s) = true
    · have h1 : ((f a).kit == s) = true := by rw [hf a]; exact hp
      rw [List.map_cons,
        @List.find?_cons_of_pos SourceRow (fun r => r.kit == s) (f a) (t.map f) h1,
        @List.find?_cons_of_pos SourceRow (fun r => r.kit == s) a t hp]
      rfl
    · have h1 : ¬ ((f a).kit == s) = true := by rw [hf a]; exact hp
      rw [List.map_cons,
        @List.find?_cons_of_neg SourceRow (fun r => r.kit == s) (f a) (t.map f) h1,
        @List.find?_cons_of_neg SourceRow (fun r => r.kit == s) a t hp, ih]

/-- C4: corrected.  Only the full rebuild path — the kit triple's data
reaching the negative-interval persist step — advances the watermark.  On
that path the first call sets `source.negative` to `max(match, triangle)`,
and the second call takes the up-to-date branch: it returns true with no
committed state, leaving the store unchanged.  (On the early-return paths
the first call returns true without touching the watermark, so a second
call repeats the same work; the claim's unconditional reading fails there,
see the counterexample.) -/
theorem C4_amended (st : Store) (s : Int) (row : SourceRow) (m t : Int)
    (hfind : st.sources.find? (fun r => r.kit == s) = some row)
    (hm : row.match_ = some m) (hm0 : m ≠ 0)
    (ht : row.triangle = some t) (ht0 : t ≠ 0)
    (hstale : row.negative.getD 0 < max m t)
    (hov : (bn_match_overlap st s).isEmpty = false)
    (hnov : (bn_neg_overlap st s).isEmpty = false)
    (hntri : (bn_neg_tri st s).isEmpty = false) :
    build_negative_states st s = (true, [bn_st1 st s, bn_st2 st s, bn_st3 st s,
      bn_st4 st s, bn_st5 st s, bn_st6 st s (max m t)]) ∧
    (build_negative st s).2.sources.find? (fun r => r.kit == s) =
      some { row with negative := some (max m t) } ∧
    build_negative_states (build_negative st s).2 s = (true, []) ∧
    (build_negative (build_negative st s).2 s).2 = (build_negative st s).2 := by
  have hq : build_negative_states st s = (true, [bn_st1 st s, bn_st2 st s, bn_st3 st s,
      bn_st4 st s, bn_st5 st s, bn_st6 st s (max m t)]) := by
    unfold build_negative_states
    rw [hfind]
    simp only
    rw [hm, ht]
    rw [if_neg (by simp [pyFalsy, hm0, ht0])]
    rw [if_neg (by simp only [Option.getD_some]; exact not_le.mpr hstale)]
    rw [if_neg (by simp [hov]), if_neg (by simp [hnov]), if_neg (by simp [hntri])]
    rfl
  have hfin : (build_negative st s).2 = bn_st6 st s (max m t) := by
    rw [show (build_negative st s).2 = (build_negative_states st s).2.getLastD st from rfl, hq]
    rfl
  have hupd_kit : ∀ r : SourceRow,
      ((if r.kit == s then { r with negative := some (max m t) } else r) : SourceRow).kit
        = r.kit := by
    intro r
    split <;> rfl
  have hfind2 : (build_negative st s).2.sources.find? (fun r => r.kit == s) =
      some { row with negative := some (max m t) } := by
    rw [hfin, bn_st6]
    rw [bn_st6a_sources, find?_map_kit _ _ _ hupd_kit, hfind]
    rw [show Option.map (fun r : SourceRow =>
        if r.kit == s then { r with negative := some (max m t) } else r) (some row) =
      some (if row.kit == s then { row with negative := some (max m t) } else row) from rfl]
    rw [if_pos (List.find?_some hfind)]
  have hq2 : build_negative_states (build_negative st s).2 s = (true, []) := by
    unfold build_negative_states
    rw [hfind2]
    simp only
    rw [hm, ht]
    rw [if_neg (by simp [pyFalsy, hm0, ht0])]
    rw [if_pos (by simp only [Option.getD_some]; exact le_refl _)]
  have h4 : (build_negative (build_negative st s).2 s).2 = (build_negative st s).2 := by
    rw [show (build_negative (build_negative st s).2 s).2 =
      (build_negative_states (build_negative st s).2 s).2.getLastD (build_negative st s).2
      from rfl, hq2]
    rfl
  exact ⟨hq, hfind2, hq2, h4⟩

/-- Witness for C4_amended at Scenario B: all hypotheses hold, the watermark
becomes `max 1 1`, and the repeated run is a no-op. -/
theorem C4_amended_witness :
    build_negative_states scenB 10 = (true, [bn_st1 scenB 10, bn_st2 scenB 10,
      bn_st3 scenB 10, bn_st4 scenB 10, bn_st5 scenB 10, bn_st6 scenB 10 (max 1 1)]) ∧
    (build_negative scenB 10).2.sources.find? (fun r => r.kit == 10) =
      some { (⟨10, some 1, some 1, none⟩ : SourceRow) with negative := some (max 1 1) } ∧
    build_negative_states (build_negative scenB 10).2 10 = (true, []) ∧
    (build_negative (build_negative scenB 10).2 10).2 = (build_negative scenB 10).2 :=
  C4_amended scenB 10 ⟨10, some 1, some 1, none⟩ 1 1 (by decide) rfl (by decide) rfl
    (by decide) (by decide) (by with_unfolding_all decide)
    (by with_unfolding_all decide) (by with_unfolding_all decide)

/-! ### Batch and row preservation through an import (C5, C9) -/

theorem foldl_pres {β γ : Type} (proj : Store → γ) (f : Store → β → Store)
    (h : ∀ st b, proj (f st b) = proj st) (l : List β) :
    ∀ st : Store, proj (l.foldl f st) = proj st := by
  induction l with
  | nil => intro st; rfl
  | cons a t ih =>
    intro st
    rw [List.foldl_cons, ih, h]

theorem insert_kit_pres (st : Store) (k : String) :
    (insert_kit st k).sources = st.sources ∧ (insert_kit st k).match_rows = st.match_rows ∧
    (insert_kit st k).triangles = st.triangles ∧ (insert_kit st k).batch = st.batch := by
  rw [insert_kit]
  split <;> exact ⟨rfl, rfl, rfl, rfl⟩

theorem update_kit_data_pres (st : Store) (rs : List KitDataRec) :
    (update_kit_data st rs).sources = st.sources ∧
    (update_kit_data st rs).match_rows = st.match_rows ∧
    (update_kit_data st rs).triangles = st.triangles ∧
    (update_kit_data st rs).batch = st.batch := by
  rw [update_kit_data]
  refine ⟨?_, ?_, ?_, ?_⟩ <;> (apply foldl_pres; intro st2 r; rfl)

theorem add_sources_pres (ks : List Int) : ∀ st : Store,
    (add_sources st ks).match_rows = st.match_rows ∧
    (add_sources st ks).triangles = st.triangles ∧
    (add_sources st ks).batch = st.batch ∧
    ∃ ext, (add_sources st ks).sources = st.sources ++ ext ∧
      ∀ r ∈ ext, r.match_ = none ∧ r.triangle = none ∧ r.negative = none ∧ r.kit ∈ ks := by
  induction ks with
  | nil =>
    intro st
    exact ⟨rfl, rfl, rfl, [], (List.append_nil _).symm, by simp⟩
  | cons k t ih =>
    intro st
    have hstep : add_sources st (k :: t) =
        add_sources (if st.sources.any (fun r => r.kit == k) then st
          else { st with sources := st.sources ++ [⟨k, none, none, none⟩] }) t := by
      rw [add_sources, add_sources, List.foldl_cons]
    rw [hstep]
    by_cases hc : st.sources.any (fun r => r.kit == k) = true
    · rw [if_pos hc]
      rcases ih st with ⟨h1, h2, h3, ext, h4, h5⟩
      exact ⟨h1, h2, h3, ext, h4, fun r hr =>
        ⟨(h5 r hr).1, (h5 r hr).2.1, (h5 r hr).2.2.1,
          List.mem_cons_of_mem k (h5 r hr).2.2.2⟩⟩
    · rw [if_neg hc]
      rcases ih { st with sources := st.sources ++ [⟨k, none, none, none⟩] } with
        ⟨h1, h2, h3, ext, h4, h5⟩
      refine ⟨h1, h2, h3, ⟨k, none, none, none⟩ :: ext, ?_, ?_⟩
      · rw [h4]
        show st.sources ++ [⟨k, none, none, none⟩] ++ ext =
          st.sources ++ (⟨k, none, none, none⟩ :: ext)
        rw [List.append_assoc]
        rfl
      · intro r hr
        rcases List.mem_cons.mp hr with rfl | hr
        · exact ⟨rfl, rfl, rfl, List.mem_cons_self k t⟩
        · exact ⟨(h5 r hr).1, (h5 r hr).2.1, (h5 r hr).2.2.1,
            List.mem_cons_of_mem k (h5 r hr).2.2.2⟩

theorem insert_segment_pres (st : Store) (t : String × Int × Int) :
    (insert_segment st t).match_rows = st.match_rows ∧
    (insert_segment st t).triangles = st.triangles ∧
    (insert_segment st t).batch = st.batch := by
  rw [insert_segment]
  split <;> exact ⟨rfl, rfl, rfl⟩

theorem insert_segments_pres (st : Store) (ts : List (String × Int × Int)) :
    (insert_segments st ts).match_rows = st.match_rows ∧
    (insert_segments st ts).triangles = st.triangles ∧
    (insert_segments st ts).batch = st.batch := by
  rw [insert_segments]
  exact ⟨foldl_pres Store.match_rows _ (fun a b => (insert_segment_pres a b).1) ts st,
    foldl_pres Store.triangles _ (fun a b => (insert_segment_pres a b).2.1) ts st,
    foldl_pres Store.batch _ (fun a b => (insert_segment_pres a b).2.2) ts st⟩

theorem insert_match_pres (st : Store) (m : MatchRow) :
    (insert_match st m).sources = st.sources ∧ (insert_match st m).batch = st.batch ∧
    (insert_match st m).triangles = st.triangles := by
  rw [insert_match]
  split <;> exact ⟨rfl, rfl, rfl⟩

theorem insert_triangle_pres (st : Store) (t : TriangleRow) :
    (insert_triangle st t).sources = st.sources ∧ (insert_triangle st t).batch = st.batch ∧
    (insert_triangle st t).match_rows = st.match_rows := by
  rw [insert_triangle]
  split <;> exact ⟨rfl, rfl, rfl⟩

/-- Batch and match-row history of the import stages: nothing before the
sixth committed state touches the batch counter or the match table, the
sixth state advances the counter alone, and only the final state holds the
new rows and watermarks. -/
theorem im_stage_pres (st : Store) (rows : List MatchInput) :
    (im_st5 st rows).batch = st.batch ∧ (im_st6 st rows).batch = st.batch + 1 ∧
    (im_st6 st rows).match_rows = st.match_rows ∧
    ∃ ext, (im_st6 st rows).sources = st.sources ++ ext ∧
      ∀ r ∈ ext, r.match_ = none ∧ r.triangle = none ∧ r.negative = none ∧
        r.kit ∈ dedupF (rows.map (fun r2 => im_ik st rows r2.kit1)) := by
  have h1s : (im_st1 st rows).sources = st.sources := by
    rw [im_st1]
    exact foldl_pres Store.sources _ (fun a b => (insert_kit_pres a b).1) _ st
  have h1m : (im_st1 st rows).match_rows = st.match_rows := by
    rw [im_st1]
    exact foldl_pres Store.match_rows _ (fun a b => (insert_kit_pres a b).2.1) _ st
  have h1b : (im_st1 st rows).batch = st.batch := by
    rw [im_st1]
    exact foldl_pres Store.batch _ (fun a b => (insert_kit_pres a b).2.2.2) _ st
  have h2 := update_kit_data_pres (im_st1 st rows) ((dedupFOn (fun r => r.kit2) rows).map
    (fun r => KitDataRec.mk (im_ik st rows r.kit2) r.name r.email r.sex))
  have h2s : (im_st2 st rows).sources = st.sources := by rw [im_st2, h2.1, h1s]
  have h2m : (im_st2 st rows).match_rows = st.match_rows := by rw [im_st2, h2.2.1, h1m]
  have h2b : (im_st2 st rows).batch = st.batch := by rw [im_st2, h2.2.2.2, h1b]
  rcases add_sources_pres (dedupF (rows.map (fun r => im_ik st rows r.kit1)))
    (im_st2 st rows) with ⟨h3m, h3t, h3b, ext, h3s, h3e⟩
  have h3s2 : (im_st3 st rows).sources = st.sources ++ ext := by rw [im_st3, h3s, h2s]
  have h3m2 : (im_st3 st rows).match_rows = st.match_rows := by rw [im_st3, h3m, h2m]
  have h3b2 : (im_st3 st rows).batch = st.batch := by rw [im_st3, h3b, h2b]
  have h4 := insert_segments_pres (im_st3 st rows)
    (dedupF ((dedupFOn (fun r => (r.chromosome, r.start, r.end_)) rows).map
      (fun r => (r.chromosome, r.start, r.end_))))
  have h4s : (im_st4 st rows).sources = st.sources ++ ext := by
    rw [im_st4, insert_segments_sources, h3s2]
  have h4m : (im_st4 st rows).match_rows = st.match_rows := by rw [im_st4, h4.1, h3m2]
  have h4b : (im_st4 st rows).batch = st.batch := by rw [im_st4, h4.2.2, h3b2]
  have h5s : (im_st5 st rows).sources = st.sources ++ ext := by
    rw [im_st5, set_segment_lengths_sources, h4s]
  have h5m : (im_st5 st rows).match_rows = st.match_rows := by
    rw [im_st5]
    exact h4m
  have h5b : (im_st5 st rows).batch = st.batch := by
    rw [im_st5]
    exact h4b
  refine ⟨h5b, ?_, ?_, ext, ?_, h3e⟩
  · rw [im_st6]
    show (im_st5 st rows).batch + 1 = st.batch + 1
    rw [h5b]
  · rw [im_st6]
    show (im_st5 st rows).match_rows = st.match_rows
    exact h5m
  · rw [im_st6]
    show (im_st5 st rows).sources = st.sources ++ ext
    exact h5s

/-- The triangle-import stages: same batch and row history, over the
triangle table. -/
theorem it_stage_pres (st : Store) (rows : List TriangleInput) :
    (it_st5 st rows).batch = st.batch ∧ (it_st6 st rows).batch = st.batch + 1 ∧
    (it_st6 st rows).triangles = st.triangles ∧
    ∃ ext, (it_st6 st rows).sources = st.sources ++ ext ∧
      ∀ r ∈ ext, r.match_ = none ∧ r.triangle = none ∧ r.negative = none ∧
        r.kit ∈ dedupF (rows.map (fun r2 => it_ik st rows r2.kit1)) := by
  have h1s : (it_st1 st rows).sources = st.sources := by
    rw [it_st1]
    exact foldl_pres Store.sources _ (fun a b => (insert_kit_pres a b).1) _ st
  have h1t : (it_st1 st rows).triangles = st.triangles := by
    rw [it_st1]
    exact foldl_pres Store.triangles _ (fun a b => (insert_kit_pres a b).2.2.1) _ st
  have h1b : (it_st1 st rows).batch = st.batch := by
    rw [it_st1]
    exact foldl_pres Store.batch _ (fun a b => (insert_kit_pres a b).2.2.2) _ st
  have h2 := update_kit_data_pres (it_st1 st rows)
    ((dedupF ((rows.filterMap (fun r =>
        match r.name2, r.email2 with
        | some n, some e => some (it_ik st rows r.kit2, n, e)
        | _, _ => none))
      ++ (rows.filterMap (fun r =>
        match r.name3, r.email3 with
        | some n, some e => some (it_ik st rows r.kit3, n, e)
        | _, _ => none)))).map
      (fun x => KitDataRec.mk x.1 (some x.2.1) (some x.2.2) none))
  have h2s : (it_st2 st rows).sources = st.sources := by rw [it_st2, h2.1, h1s]
  have h2t : (it_st2 st rows).triangles = st.triangles := by rw [it_st2, h2.2.2.1, h1t]
  have h2b : (it_st2 st rows).batch = st.batch := by rw [it_st2, h2.2.2.2, h1b]
  rcases add_sources_pres (dedupF (rows.map (fun r => it_ik st rows r.kit1)))
    (it_st2 st rows) with ⟨h3m, h3t, h3b, ext, h3s, h3e⟩
  have h3s2 : (it_st3 st rows).sources = st.sources ++ ext := by rw [it_st3, h3s, h2s]
  have h3t2 : (it_st3 st rows).triangles = st.triangles := by rw [it_st3, h3t, h2t]
  have h3b2 : (it_st3 st rows).batch = st.batch := by rw [it_st3, h3b, h2b]
  have h4 := insert_segments_pres (it_st3 st rows)
    (dedupF ((dedupFOn (fun r => (r.chromosome, r.start, r.end_)) rows).map
      (fun r => (r.chromosome, r.start, r.end_))))
  have h4s : (it_st4 st rows).sources = st.sources ++ ext := by
    rw [it_st4, insert_segments_sources, h3s2]
  have h4t : (it_st4 st rows).triangles = st.triangles := by rw [it_st4, h4.2.1, h3t2]
  have h4b : (it_st4 st rows).batch = st.batch := by rw [it_st4, h4.2.2, h3b2]
  have h5s : (it_st5 st rows).sources = st.sources ++ ext := by
    rw [it_st5, set_segment_lengths_sources, h4s]
  have h5t : (it_st5 st rows).triangles = st.triangles := by
    rw [it_st5]
    exact h4t
  have h5b : (it_st5 st rows).batch = st.batch := by
    rw [it_st5]
    exact h4b
  refine ⟨h5b, ?_, ?_, ext, ?_, h3e⟩
  · rw [it_st6]
    show (it_st5 st rows).batch + 1 = st.batch + 1
    rw [h5b]
  · rw [it_st6]
    show (it_st5 st rows).triangles = st.triangles
    exact h5t
  · rw [it_st6]
    show (it_st5 st rows).sources = st.sources ++ ext
    exact h5s

/-- C5: corrected.  The two imports are not all-or-nothing: each commits
seven separate transactions, every one of which is an observable store
state.  The batch counter is advanced in its own transaction — the sixth
state — before any match or triangle row exists, not "when the enclosing
transaction commits"; the new rows and the source watermarks appear only
with the final, seventh state. -/
theorem C5_amended (st : Store) (rows : List MatchInput) (trows : List TriangleInput) :
    (import_matches_states st rows).length = 7 ∧
    (im_st5 st rows).batch = st.batch ∧
    (im_st6 st rows).batch = st.batch + 1 ∧
    (im_st6 st rows).match_rows = st.match_rows ∧
    (∃ ext, (im_st6 st rows).sources = st.sources ++ ext ∧
      ∀ r ∈ ext, r.match_ = none ∧ r.triangle = none ∧ r.negative = none) ∧
    import_matches st rows = im_st7 st rows ∧
    (import_triangles_states st trows).length = 7 ∧
    (it_st5 st trows).batch = st.batch ∧
    (it_st6 st trows).batch = st.batch + 1 ∧
    (it_st6 st trows).triangles = st.triangles ∧
    (∃ ext, (it_st6 st trows).sources = st.sources ++ ext ∧
      ∀ r ∈ ext, r.match_ = none ∧ r.triangle = none ∧ r.negative = none) ∧
    import_triangles st trows = it_st7 st trows := by
  rcases im_stage_pres st rows with ⟨hm5, hm6, hmm, ext, hms, hme⟩
  rcases it_stage_pres st trows with ⟨ht5, ht6, htt, ext2, hts, hte⟩
  exact ⟨rfl, hm5, hm6, hmm,
    ⟨ext, hms, fun r hr => ⟨(hme r hr).1, (hme r hr).2.1, (hme r hr).2.2.1⟩⟩, rfl,
    rfl, ht5, ht6, htt,
    ⟨ext2, hts, fun r hr => ⟨(hte r hr).1, (hte r hr).2.1, (hte r hr).2.2.1⟩⟩, rfl⟩

/-- A kit is in the watermark set of an import iff a stored match row of the
new batch has it as `kit1`. -/
theorem mem_im_updated (st : Store) (rows : List MatchInput) (k : Int) :
    k ∈ im_updated st rows ↔ ∃ mr ∈ (im_st7a st rows).match_rows,
      mr.batch = (im_st6 st rows).batch ∧ mr.kit1 = k := by
  rw [im_updated, mem_dedupF, List.mem_map]
  constructor
  · rintro ⟨mr, hmr, rfl⟩
    rcases List.mem_filter.mp hmr with ⟨hm, hb⟩
    exact ⟨mr, hm, by simpa using hb, rfl⟩
  · rintro ⟨mr, hm, hb, rfl⟩
    exact ⟨mr, List.mem_filter.mpr ⟨hm, by simp [hb]⟩, rfl⟩

theorem im_st7a_sources (st : Store) (rows : List MatchInput) :
    (im_st7a st rows).sources = (im_st6 st rows).sources := by
  rw [im_st7a]
  exact foldl_pres Store.sources _ (fun a b => (insert_match_pres a b).1) _ _

theorem im_st7_sources (st : Store) (rows : List MatchInput) :
    (im_st7 st rows).sources = (im_st6 st rows).sources.map
      (fun s => if s.kit ∈ im_updated st rows
        then { s with match_ := some ((im_st6 st rows).batch) } else s) := by
  rw [im_st7]
  show (im_st7a st rows).sources.map _ = _
  rw [im_st7a_sources]

/-- C9: corrected.  After `import_matches`, a source row's watermark equals
the new batch exactly when a match row of that batch with the source as
`kit1` actually survived insertion — `ON CONFLICT IGNORE` can drop a
duplicate row, and then its kit keeps its stale watermark (see the
counterexample).  New source rows can only arise for internal ids of `kit1`
values of the imported rows, so a kit appearing only as `kit2` gains no
source row. -/
theorem C9_amended (st : Store) (rows : List MatchInput)
    (hwfs : ∀ sr ∈ st.sources, ∀ b, sr.match_ = some b → b ≤ st.batch) :
    (∀ sr ∈ (import_matches st rows).sources,
      (sr.match_ = some (st.batch + 1) ↔
        ∃ mr ∈ (import_matches st rows).match_rows,
          mr.batch = st.batch + 1 ∧ mr.kit1 = sr.kit)) ∧
    (∃ ext, (import_matches st rows).sources =
        st.sources.map (fun s => if s.kit ∈ im_updated st rows
          then { s with match_ := some (st.batch + 1) } else s) ++ ext ∧
      ∀ r ∈ ext, r.kit ∈ rows.map (fun r2 => im_ik st rows r2.kit1)) := by
  rcases im_stage_pres st rows with ⟨-, hm6, -, ext, hms, hme⟩
  have hsrc : (import_matches st rows).sources = (st.sources ++ ext).map
      (fun s => if s.kit ∈ im_updated st rows
        then { s with match_ := some ((im_st6 st rows).batch) } else s) := by
    show (im_st7 st rows).sources = _
    rw [im_st7_sources, hms]
  constructor
  · intro sr hsr
    rw [hsrc, List.mem_map] at hsr
    rcases hsr with ⟨s0, hs0, rfl⟩
    by_cases hk : s0.kit ∈ im_updated st rows
    · rw [if_pos hk]
      constructor
      · intro _
        rcases (mem_im_updated st rows s0.kit).mp hk with ⟨mr, hm, hb, hk1⟩
        exact ⟨mr, hm, by rw [hb, hm6], hk1.trans rfl⟩
      · intro _
        show some ((im_st6 st rows).batch) = some (st.batch + 1)
        rw [hm6]
    · rw [if_neg hk]
      constructor
      · intro hms0
        exfalso
        rcases List.mem_append.mp hs0 with h | h
        · have hle := hwfs s0 h (st.batch + 1) hms0
          omega
        · rw [(hme s0 h).1] at hms0
          cases hms0
      · rintro ⟨mr, hm, hb, hk1⟩
        exact absurd ((mem_im_updated st rows s0.kit).mpr
          ⟨mr, hm, by rw [hb, hm6], hk1⟩) hk
  · refine ⟨ext.map (fun s => if s.kit ∈ im_updated st rows
      then { s with match_ := some ((im_st6 st rows).batch) } else s), ?_, ?_⟩
    · rw [hsrc, List.map_append, hm6]
    · intro r hr
      rcases List.mem_map.mp hr with ⟨e, he, rfl⟩
      have hkit : ((if e.kit ∈ im_updated st rows
          then { e with match_ := some ((im_st6 st rows).batch) } else e) : SourceRow).kit
          = e.kit := by
        split <;> rfl
      rw [hkit]
      have hmem := (hme e he).2.2.2
      rw [mem_dedupF] at hmem
      exact hmem

/-- Witness for C9_amended at the duplicate-import store: the watermark
equivalence and the source-extension bound hold for re-importing the already
stored match. -/
theorem C9_amended_witness :
    (∀ sr ∈ (import_matches cex9store cex5rows).sources,
      (sr.match_ = some (cex9store.batch + 1) ↔
        ∃ mr ∈ (import_matches cex9store cex5rows).match_rows,
          mr.batch = cex9store.batch + 1 ∧ mr.kit1 = sr.kit)) ∧
    (∃ ext, (import_matches cex9store cex5rows).sources =
        cex9store.sources.map (fun s => if s.kit ∈ im_updated cex9store cex5rows
          then { s with match_ := some (cex9store.batch + 1) } else s) ++ ext ∧
      ∀ r ∈ ext, r.kit ∈ cex5rows.map (fun r2 => im_ik cex9store cex5rows r2.kit1)) :=
  C9_amended cex9store cex5rows (by
    intro sr hsr b hb
    have hsr2 : sr ∈ [(⟨1, some 1, none, none⟩ : SourceRow)] := hsr
    have heq : sr = ⟨1, some 1, none, none⟩ := by simpa using hsr2
    subst heq
    cases hb
    decide)

/-- C10: `cluster_data` is a pure function of the store contents and the
configuration, so two runs over identical inputs give identical outputs; and
`argmaxConf` — the greedy choice of `get_clusters` — picks the first row of
maximal confidence in the fixed positional order of its (kit-sorted) frame,
so ties are broken deterministically by position. -/
theorem C10_deterministic (st1 st2 : Store) (c1 c2 : ClusterConfig)
    (hst : st1 = st2) (hc : c1 = c2) :
    cluster_data st1 c1 = cluster_data st2 c2 ∧
    (∀ ls : List LabelRow, (argmaxConf ls = none ↔ ls = []) ∧
      ∀ r, argmaxConf ls = some r →
        (∀ x ∈ ls, x.confidence ≤ r.confidence) ∧
        ∃ pre post, ls = pre ++ r :: post ∧
          ∀ x ∈ pre, x.confidence < r.confidence) := by
  subst hst
  subst hc
  refine ⟨rfl, ?_⟩
  intro ls
  induction ls with
  | nil =>
    refine ⟨by simp [argmaxConf], fun r hr => ?_⟩
    rw [argmaxConf] at hr
    cases hr
  | cons a rs ih =>
    constructor
    · constructor
      · intro h
        rw [argmaxConf] at h
        cases hrs : argmaxConf rs with
        | none =>
          rw [hrs] at h
          simp only at h
          cases h
        | some b =>
          rw [hrs] at h
          simp only at h
          split at h <;> cases h
      · intro h
        cases h
    · intro r hr
      rw [argmaxConf] at hr
      cases hrs : argmaxConf rs with
      | none =>
        rw [hrs] at hr
        simp only at hr
        cases hr
        have hempty : rs = [] := (ih.1).mp hrs
        subst hempty
        refine ⟨by simp, [], [], rfl, by simp⟩
      | some b =>
        rw [hrs] at hr
        simp only at hr
        rcases ih.2 b hrs with ⟨hmax, pre, post, heq, hpre⟩
        by_cases hgt : b.confidence > a.confidence
        · rw [if_pos hgt] at hr
          cases hr
          refine ⟨?_, a :: pre, post, by rw [heq, List.cons_append], ?_⟩
          · intro x hx
            rcases List.mem_cons.mp hx with rfl | hx
            · exact le_of_lt hgt
            · exact hmax x hx
          · intro x hx
            rcases List.mem_cons.mp hx with rfl | hx
            · exact hgt
            · exact hpre x hx
        · rw [if_neg hgt] at hr
          cases hr
          refine ⟨?_, [], rs, rfl, by simp⟩
          intro x hx
          rcases List.mem_cons.mp hx with rfl | hx
          · exact le_refl _
          · exact le_trans (hmax x hx) (not_lt.mp hgt)

/-- Witness for C10 at the concrete clustering store and configuration. -/
theorem C10_deterministic_witness :
    cluster_data cex7store cex7config = cluster_data cex7store cex7config ∧
    (∀ ls : List LabelRow, (argmaxConf ls = none ↔ ls = []) ∧
      ∀ r, argmaxConf ls = some r →
        (∀ x ∈ ls, x.confidence ≤ r.confidence) ∧
        ∃ pre post, ls = pre ++ r :: post ∧
          ∀ x ∈ pre, x.confidence < r.confidence) :=
  C10_deterministic cex7store cex7store cex7config cex7config rfl rfl

/-! ### Confidence bounds (C7) -/

/-- Sums over two disjoint sublists of edges differ by at most the total
absolute weight. -/
theorem sum_filter_sub_abs_le (l : List Edge) (p q : Edge → Bool)
    (h : ∀ e ∈ l, ¬(p e = true ∧ q e = true)) :
    |((l.filter p).map (fun e => e.weight)).sum -
      ((l.filter q).map (fun e => e.weight)).sum| ≤
      (l.map (fun e => |e.weight|)).sum := by
  induction l with
  | nil => simp
  | cons e t ih =>
    have ih2 := ih (fun x hx => h x (List.mem_cons_of_mem e hx))
    have hnot := h e (List.mem_cons_self e t)
    rw [List.map_cons, List.sum_cons]
    by_cases hp : p e = true
    · have hq : ¬ q e = true := fun hq => hnot ⟨hp, hq⟩
      rw [List.filter_cons_of_pos hp, List.filter_cons_of_neg hq, List.map_cons, List.sum_cons]
      have key : |e.weight + ((t.filter p).map (fun e => e.weight)).sum -
          ((t.filter q).map (fun e => e.weight)).sum| ≤ |e.weight| +
          |((t.filter p).map (fun e => e.weight)).sum -
            ((t.filter q).map (fun e => e.weight)).sum| := by
        have harr : e.weight + ((t.filter p).map (fun e => e.weight)).sum -
            ((t.filter q).map (fun e => e.weight)).sum =
            e.weight + (((t.filter p).map (fun e => e.weight)).sum -
              ((t.filter q).map (fun e => e.weight)).sum) := by ring
        rw [harr]
        exact abs_add _ _
      exact le_trans key (add_le_add_left ih2 _)
    · rw [List.filter_cons_of_neg hp]
      by_cases hq : q e = true
      · rw [List.filter_cons_of_pos hq, List.map_cons, List.sum_cons]
        have harr : ((t.filter p).map (fun e => e.weight)).sum -
            (e.weight + ((t.filter q).map (fun e => e.weight)).sum) =
            (((t.filter p).map (fun e => e.weight)).sum -
              ((t.filter q).map (fun e => e.weight)).sum) + (-e.weight) := by ring
        have key : |((t.filter p).map (fun e => e.weight)).sum -
            (e.weight + ((t.filter q).map (fun e => e.weight)).sum)| ≤
            |((t.filter p).map (fun e => e.weight)).sum -
              ((t.filter q).map (fun e => e.weight)).sum| + |e.weight| := by
          rw [harr]
          calc |(((t.filter p).map (fun e => e.weight)).sum -
              ((t.filter q).map (fun e => e.weight)).sum) + (-e.weight)| ≤
              |((t.filter p).map (fun e => e.weight)).sum -
                ((t.filter q).map (fun e => e.weight)).sum| + |(-e.weight)| := abs_add _ _
            _ = |((t.filter p).map (fun e => e.weight)).sum -
                ((t.filter q).map (fun e => e.weight)).sum| + |e.weight| := by rw [abs_neg]
        calc |((t.filter p).map (fun e => e.weight)).sum -
            (e.weight + ((t.filter q).map (fun e => e.weight)).sum)| ≤
            |((t.filter p).map (fun e => e.weight)).sum -
              ((t.filter q).map (fun e => e.weight)).sum| + |e.weight| := key
          _ ≤ (t.map (fun e => |e.weight|)).sum + |e.weight| := add_le_add_right ih2 _
          _ = |e.weight| + (t.map (fun e => |e.weight|)).sum := by ring
      · rw [List.filter_cons_of_neg hq]
        exact le_trans ih2 (le_add_of_nonneg_left (abs_nonneg _))

/-- The P/M segment-sum difference of a vertex is bounded by its total
absolute edge weight. -/
theorem seg_sum_bound (graph : List Edge) (labels : List LabelRow) (k : Int) :
    |seg_sum graph labels k "P" - seg_sum graph labels k "M"| ≤ abs_weight_sum graph k := by
  rw [seg_sum, seg_sum, abs_weight_sum]
  have hp : graph.filter (fun e => e.kit1 == k && label_of labels e.kit2 == some "P") =
      (graph.filter (fun e => e.kit1 == k)).filter
        (fun e => label_of labels e.kit2 == some "P") := by
    rw [List.filter_filter]
    exact List.filter_congr (fun e _ => Bool.and_comm _ _)
  have hq : graph.filter (fun e => e.kit1 == k && label_of labels e.kit2 == some "M") =
      (graph.filter (fun e => e.kit1 == k)).filter
        (fun e => label_of labels e.kit2 == some "M") := by
    rw [List.filter_filter]
    exact List.filter_congr (fun e _ => Bool.and_comm _ _)
  rw [hp, hq]
  exact sum_filter_sub_abs_le (graph.filter (fun e => e.kit1 == k))
    (fun e => label_of labels e.kit2 == some "P")
    (fun e => label_of labels e.kit2 == some "M")
    (fun e _ hpq => by
      have h1 : label_of labels e.kit2 = some "P" := by simpa using hpq.1
      have h2 : label_of labels e.kit2 = some "M" := by simpa using hpq.2
      rw [h1] at h2
      exact absurd h2 (by decide))

/-- Every row of a `compute_round` with faithful positive weights has its
confidence in `[0, 1]`. -/
theorem compute_round_conf_bound (graph : List Edge) (labels : List LabelRow)
    (hw : ∀ r ∈ labels, r.weight = abs_weight_sum graph r.kit ∧ 0 < r.weight) :
    ∀ r2 ∈ compute_round graph labels, 0 ≤ r2.confidence ∧ r2.confidence ≤ 1 := by
  intro r2 hr2
  rw [compute_round, List.mem_map] at hr2
  rcases hr2 with ⟨r, hr, rfl⟩
  rcases hw r hr with ⟨hwe, hwp⟩
  constructor
  · show 0 ≤ |seg_sum graph labels r.kit "P" - seg_sum graph labels r.kit "M"| / r.weight
    exact div_nonneg (abs_nonneg _) (le_of_lt hwp)
  · show |seg_sum graph labels r.kit "P" - seg_sum graph labels r.kit "M"| / r.weight ≤ 1
    rw [div_le_one hwp, hwe]
    exact seg_sum_bound graph labels r.kit

theorem compute_round_weights (graph : List Edge) (labels : List LabelRow)
    (hw : ∀ r ∈ labels, r.weight = abs_weight_sum graph r.kit ∧ 0 < r.weight) :
    ∀ r2 ∈ compute_round graph labels,
      r2.weight = abs_weight_sum graph r2.kit ∧ 0 < r2.weight := by
  intro r2 hr2
  rw [compute_round, List.mem_map] at hr2
  rcases hr2 with ⟨r, hr, rfl⟩
  exact hw r hr

theorem update_label_weights (graph : List Edge) (labels : List LabelRow) (k : Int)
    (lbl : String)
    (hw : ∀ r ∈ labels, r.weight = abs_weight_sum graph r.kit ∧ 0 < r.weight) :
    ∀ r2 ∈ update_label labels k lbl,
      r2.weight = abs_weight_sum graph r2.kit ∧ 0 < r2.weight := by
  intro r2 hr2
  rw [update_label, List.mem_map] at hr2
  rcases hr2 with ⟨r, hr, rfl⟩
  split
  · exact hw r hr
  · exact hw r hr

/-- The greedy loop always returns freshly computed columns, so every
confidence it reports is in `[0, 1]`. -/
theorem gc_loop_conf_bound (graph : List Edge) (seeds : List SeedRow) :
    ∀ (fuel : Nat) (labels : List LabelRow),
      (∀ r ∈ labels, r.weight = abs_weight_sum graph r.kit ∧ 0 < r.weight) →
      ∀ r ∈ gc_loop graph seeds fuel labels, 0 ≤ r.confidence ∧ r.confidence ≤ 1 := by
  intro fuel
  induction fuel with
  | zero =>
    intro labels hw r hr
    rw [gc_loop] at hr
    exact compute_round_conf_bound graph labels hw r hr
  | succ n ih =>
    intro labels hw r hr
    rw [gc_loop] at hr
    dsimp only at hr
    cases hm : argmaxConf ((compute_round graph labels).filter (available seeds)) with
    | none =>
      rw [hm] at hr
      simp only at hr
      exact compute_round_conf_bound graph labels hw r hr
    | some b =>
      rw [hm] at hr
      simp only at hr
      exact ih (update_label (compute_round graph labels) b.kit
          (if 0 < b.paternal then "P" else "M"))
        (update_label_weights graph _ _ _ (compute_round_weights graph labels hw)) r hr

/-- Every confidence of `get_clusters` is either missing (isolated seeds) or
in `[0, 1]`. -/
theorem get_clusters_conf_bound (graph : List Edge) (seeds : List SeedRow) :
    ∀ cr ∈ get_clusters graph seeds, cr.confidence = none ∨
      ∃ q, cr.confidence = some q ∧ 0 ≤ q ∧ q ≤ 1 := by
  intro cr hcr
  rw [get_clusters] at hcr
  dsimp only at hcr
  rcases List.mem_append.mp hcr with h | h
  · rcases List.mem_map.mp h with ⟨r, hr, rfl⟩
    right
    refine ⟨r.confidence, rfl, ?_⟩
    refine gc_loop_conf_bound graph seeds _ _ ?_ r hr
    intro r0 hr0
    rw [List.mem_filterMap] at hr0
    rcases hr0 with ⟨k, hk, hfk⟩
    split at hfk
    · cases hfk
      exact ⟨rfl, by assumption⟩
    · cases hfk
  · rcases List.mem_map.mp h with ⟨s, hs, rfl⟩
    left
    rfl

/-- `rc_conf` over a `get_clusters` frame is none or in `[0, 1]`. -/
theorem rc_conf_bound (graph : List Edge) (seeds : List SeedRow) (k : Int) :
    rc_conf (get_clusters graph seeds) k = none ∨
      ∃ q, rc_conf (get_clusters graph seeds) k = some q ∧ 0 ≤ q ∧ q ≤ 1 := by
  rw [rc_conf]
  cases hf : (get_clusters graph seeds).find? (fun c => c.kit == k) with
  | none =>
    left
    rfl
  | some c0 =>
    have hc0 : c0 ∈ get_clusters graph seeds := List.mem_of_find?_eq_some hf
    rcases get_clusters_conf_bound graph seeds c0 hc0 with h | ⟨q, hq, h0, h1⟩
    · left
      exact h
    · right
      exact ⟨q, hq, h0, h1⟩

/-- The single column written by `rc_plain_rows` is a `get_clusters`
confidence, hence none or in `[0, 1]`. -/
theorem rc_plain_cols_bound (g : List Edge) (sds : List SeedRow) (a depth : Nat)
    (grp : List Int) (r : RRow) (hr : r ∈ rc_plain_rows (get_clusters g sds) a depth grp) :
    ∀ c ∈ r.cols, c.2.2 = none ∨ ∃ q, c.2.2 = some q ∧ 0 ≤ q ∧ q ≤ 1 := by
  rw [rc_plain_rows, List.mem_map] at hr
  rcases hr with ⟨k, hk, rfl⟩
  intro c hc
  have hc2 := List.mem_singleton.mp hc
  subst hc2
  exact rc_conf_bound g sds k

/-- Appending one `get_clusters` confidence column to bounded columns keeps
them bounded. -/
theorem rc_branch_cols_bound (g : List Edge) (sds : List SeedRow) (depth : Nat)
    (lbl : String) (sub : List RRow)
    (hsub : ∀ x ∈ sub, ∀ c ∈ x.cols, c.2.2 = none ∨ ∃ q, c.2.2 = some q ∧ 0 ≤ q ∧ q ≤ 1)
    (r : RRow)
    (hr : r ∈ sub.map (fun x =>
      { x with cols := x.cols ++ [(depth, lbl, rc_conf (get_clusters g sds) x.kit)] })) :
    ∀ c ∈ r.cols, c.2.2 = none ∨ ∃ q, c.2.2 = some q ∧ 0 ≤ q ∧ q ≤ 1 := by
  rw [List.mem_map] at hr
  rcases hr with ⟨x, hx, rfl⟩
  intro c hc
  rcases List.mem_append.mp hc with hc | hc
  · exact hsub x hx c hc
  · have hc2 := List.mem_singleton.mp hc
    subst hc2
    exact rc_conf_bound g sds x.kit

/-- Every depth column produced anywhere in `recursive_cluster` holds a
missing confidence or one in `[0, 1]`. -/
theorem recursive_cluster_cols_bound (ml : Rat) (tree : SeedTree) :
    ∀ (st : Store) (kits : List Int) (graph : List Edge),
      ∀ r ∈ (recursive_cluster st ml kits tree graph).1, ∀ c ∈ r.cols,
        c.2.2 = none ∨ ∃ q, c.2.2 = some q ∧ 0 ≤ q ∧ q ≤ 1 := by
  induction tree with
  | n0 a vals =>
    intro st kits graph r hr c hc
    rw [recursive_cluster] at hr
    dsimp only at hr
    rw [rc_leaf, List.mem_map] at hr
    rcases hr with ⟨k, hk, rfl⟩
    exact absurd hc (List.not_mem_nil c)
  | nM a vals m ihm =>
    intro st kits graph r hr
    rw [recursive_cluster] at hr
    dsimp only at hr
    split at hr
    · rcases List.mem_append.mp hr with hr2 | hr2
      · rcases List.mem_append.mp hr2 with hr3 | hr3
        · exact rc_plain_cols_bound _ _ _ _ _ r hr3
        · split at hr3
          · exact absurd hr3 (List.not_mem_nil r)
          · exact rc_branch_cols_bound _ _ _ _ _ (ihm _ _ _) r hr3
      · exact rc_plain_cols_bound _ _ _ _ _ r hr2
    · rw [rc_leaf, List.mem_map] at hr
      rcases hr with ⟨k, hk, rfl⟩
      intro c hc
      exact absurd hc (List.not_mem_nil c)
  | nP a vals p ihp =>
    intro st kits graph r hr
    rw [recursive_cluster] at hr
    dsimp only at hr
    split at hr
    · rcases List.mem_append.mp hr with hr2 | hr2
      · rcases List.mem_append.mp hr2 with hr3 | hr3
        · exact rc_plain_cols_bound _ _ _ _ _ r hr3
        · exact rc_plain_cols_bound _ _ _ _ _ r hr3
      · split at hr2
        · exact absurd hr2 (List.not_mem_nil r)
        · exact rc_branch_cols_bound _ _ _ _ _ (ihp _ _ _) r hr2
    · rw [rc_leaf, List.mem_map] at hr
      rcases hr with ⟨k, hk, rfl⟩
      intro c hc
      exact absurd hc (List.not_mem_nil c)
  | nMP a vals m p ihm ihp =>
    intro st kits graph r hr
    rw [recursive_cluster] at hr
    dsimp only at hr
    split at hr
    · rcases List.mem_append.mp hr with hr2 | hr2
      · rcases List.mem_append.mp hr2 with hr3 | hr3
        · exact rc_plain_cols_bound _ _ _ _ _ r hr3
        · split at hr3
          · exact absurd hr3 (List.not_mem_nil r)
          · exact rc_branch_cols_bound _ _ _ _ _ (ihm _ _ _) r hr3
      · split at hr2
        · exact absurd hr2 (List.not_mem_nil r)
        · exact rc_branch_cols_bound _ _ _ _ _ (ihp _ _ _) r hr2
    · rw [rc_leaf, List.mem_map] at hr
      rcases hr with ⟨k, hk, rfl⟩
      intro c hc
      exact absurd hc (List.not_mem_nil c)

/-- C7: corrected.  Every confidence value in a `cluster_data` output row is
either missing — isolated seeds and kits with no surviving label row carry a
null confidence, not a number — or a rational in the closed interval
`[0, 1]`:  `|seg_sum_P - seg_sum_M|` never exceeds the vertex's total
absolute edge weight, and the bound carries through every depth column. -/
theorem C7_amended (st : Store) (config : ClusterConfig) (out : List OutRow) (st2 : Store)
    (h : cluster_data st config = some (out, st2)) :
    ∀ r ∈ out, ∀ c ∈ r.cols, c.2.2 = none ∨ ∃ q, c.2.2 = some q ∧ 0 ≤ q ∧ q ≤ 1 := by
  rw [cluster_data] at h
  dsimp only at h
  split at h
  · split at h
    · cases h
    · split at h
      · cases h
      · have h2 := Option.some.inj h
        have hout : out = (recursive_cluster st config.min_length _ _
            (base_graph st config.min_length config.exclude)).1.map _ :=
          (congrArg Prod.fst h2).symm
        intro r hr
        rw [hout, List.mem_map] at hr
        rcases hr with ⟨r0, hr0, rfl⟩
        intro c hc
        exact recursive_cluster_cols_bound config.min_length _ st _ _ r0 hr0 c hc
  · cases h

/-- Witness for C7_amended: the depth-0 confidence of kit B's output row on
the concrete clustering store is missing or in `[0, 1]` (here: `some 1`). -/
theorem C7_amended_witness :
    ((OutRow.mk (some "B") 3 (some 3) [(0, "M", some 1)]).cols.getD 0 (0, "", none)).2.2
        = none ∨
      ∃ q, ((OutRow.mk (some "B") 3 (some 3) [(0, "M", some 1)]).cols.getD 0
        (0, "", none)).2.2 = some q ∧ 0 ≤ q ∧ q ≤ 1 :=
  C7_amended cex7store cex7config
    [⟨some "C", 1, none, [(0, "", none)]⟩,
      ⟨some "B", 3, some 3, [(0, "M", some 1)]⟩,
      ⟨some "A", 2, some 2, [(0, "P", some 1)]⟩] cex7store
    (by with_unfolding_all decide)
    ⟨some "B", 3, some 3, [(0, "M", some 1)]⟩ (by with_unfolding_all decide)
    (0, "M", some 1) (by with_unfolding_all decide)

/-- Witness for `C6_amended`: with anchors (0 cM at 0 bp) and (10 cM at
100 bp) bracketing both endpoints, the null segment [25, 75] acquires the
interpolated length. -/
theorem C6_amended_witness :
    SegmentRow.mk 1 "1" 25 75
        (some (interp_cm 75 0 100 0 10 - interp_cm 25 0 100 0 10))
      ∈ (set_segment_lengths c6wstore).segments :=
  (C6_amended c6wstore).2.2 (by unfold genetmap_uniq; decide)
    ⟨1, "1", 25, 75, none⟩ (by decide) rfl
    ⟨"1", 0, 0⟩ ⟨"1", 100, 10⟩ ⟨"1", 0, 0⟩ ⟨"1", 100, 10⟩
    (by unfold lower_anchor_spec; decide) (by unfold upper_anchor_spec; decide)
    (by unfold lower_anchor_spec; decide) (by unfold upper_anchor_spec; decide)

/-- Witness for C2_amended: its hypotheses hold in `c2wstore` for overlap 7
and its segment `[0, 100]`, so the disjointness, bounds and coverage clauses
hold there. -/
theorem C2_amended_witness :
    (∀ iv ∈ overlap_neg_rows c2wstore 1 7, iv.chromosome = "1" ∧
      (0 : Int) ≤ iv.start ∧ iv.start < iv.end_ ∧ iv.end_ ≤ (100 : Int)) ∧
    (overlap_neg_rows c2wstore 1 7).Pairwise (fun u v => u.end_ ≤ v.start) ∧
    ((∃ r ∈ select_neg_overlap c2wstore 1, r.overlap = 7) →
      ∀ p : Int, 0 ≤ p → p ≤ 100 →
        (∃ iv ∈ overlap_neg_rows c2wstore 1 7, iv.start ≤ p ∧ p ≤ iv.end_) ∨
        (∃ x ∈ overlap_pos_rows c2wstore 1 7, x.1 ≤ p ∧ p ≤ x.2)) ∧
    (overlap_tris c2wstore ⟨7, 1, 2, 3, 1⟩ = [] →
      overlap_neg_rows c2wstore 1 7 = [⟨7, "1", 0, 100⟩]) ∧
    ((∀ r ∈ select_neg_overlap c2wstore 1, r.overlap ≠ 7) →
      overlap_neg_rows c2wstore 1 7 = []) :=
  C2_amended c2wstore 1 ⟨7, 1, 2, 3, 1⟩ ⟨1, "1", 0, 100, none⟩
    (by decide) rfl (by decide) (by decide) (by decide) (by decide) (by decide)

end Kg
